import Mathlib

/-!
Verification development for the Knee-Braced physiotherapy monitoring
repository.  The definitions below are a shallow embedding of the core
logic of the repository: the Firestore Cloud Functions
(`onReadingCreated`, `updateExerciseProgress`) and the browser-side
serial-device hook (`parseSerialLine`, the read-loop line reassembly,
`saveReading`, `startRecording`).  JavaScript numbers that hold angle
values are modelled as rationals; the document database is modelled as
an association list keyed by document id.
-/

namespace KneeBraced

/-- JavaScript `x || y` on numbers, for the cases arising in the source:
`x` is a number field that is always present, so the fallback is taken
exactly when `x` is `0` (falsy).  Mirrors
`progressData.minAngle || reading.angle` in `updateExerciseProgress`. -/
def jsOrQ (x y : ℚ) : ℚ := if x = 0 then y else x

/-- JavaScript truthiness of a string that is always present:
non-empty strings are truthy.  Mirrors `reading.exerciseId ? ... : ...`. -/
def jsTruthyStr (s : String) : Bool := decide (s ≠ "")

/-- JavaScript truthiness of a possibly-absent string field:
`undefined`/`null`/`""` are falsy.  Mirrors `reading.exerciseId ?`. -/
def jsTruthyOptStr : Option String → Bool
  | none => false
  | some s => decide (s ≠ "")

namespace Progress

/-- Lifecycle status of an `AssignedExercise`
(`"assigned" | "in_progress" | "completed"` in `shared/schema`). -/
inductive AStatus where
  | assigned
  | inProgress
  | completed
deriving DecidableEq, Repr

/-- Lifecycle status of a progress session
(`"active" | "completed" | "abandoned"`; the Cloud Function only ever
creates `active` sessions and sets `completed`). -/
inductive SStatus where
  | active
  | completed
  | abandoned
deriving DecidableEq, Repr

/-- One reading document under `readings/{patientId}/events/{readingId}`,
restricted to the fields `updateExerciseProgress` reads. -/
structure Reading where
  exerciseId : String
  angle : ℚ
  timestamp : ℕ
deriving DecidableEq, Repr

/-- The single `AssignedExercise` document of the modelled patient,
restricted to the fields `updateExerciseProgress` reads or writes. -/
structure Assigned where
  exerciseId : String
  targetAngleMin : ℚ
  targetAngleMax : ℚ
  targetReps : ℕ
  status : AStatus
  completedAt : Option ℕ
deriving DecidableEq, Repr

/-- A progress-session document under
`progress/{patientId}/exerciseProgress`. -/
structure Session where
  repsCompleted : ℕ
  readingIds : List String
  minAngle : ℚ
  maxAngle : ℚ
  averageAngle : Option ℚ
  status : SStatus
  sessionStartTime : ℕ
  sessionEndTime : Option ℕ
  completedAt : Option ℕ
deriving DecidableEq, Repr

/-- The slice of the Firestore state that `updateExerciseProgress`
touches, for one patient with one assigned exercise: the reading
documents (keyed by reading id), the assigned-exercise document, and
the at-most-one progress-session document that the status-filtered
queries can observe. -/
structure St where
  readings : List (String × Reading)
  assigned : Assigned
  session : Option Session
deriving DecidableEq, Repr

/-- `get` of a reading document by id (first binding wins, ids are
unique in a Firestore collection). -/
def lookupReading (store : List (String × Reading)) (rid : String) : Option Reading :=
  match store with
  | [] => none
  | (i, r) :: rest => if i = rid then some r else lookupReading rest rid

/-- Firestore `FieldValue.arrayUnion`: append the element unless it is
already present. -/
def arrayUnion (l : List String) (x : String) : List String :=
  if x ∈ l then l else l ++ [x]

/-- JavaScript `list.slice(-n)`: the at most `n` last elements. -/
def takeLast (n : ℕ) (l : List α) : List α := l.drop (l.length - n)

/-- Arithmetic mean of a list of rationals
(`angles.reduce((sum, angle) => sum + angle, 0) / angles.length`).
On the empty list this is `0` by the rational `x / 0 = 0` convention;
the source never queries an empty id list, since the id of the
triggering reading is always included. -/
def listMean (l : List ℚ) : ℚ := l.sum / l.length

/-- The Firestore `where(documentId(), "in", ids)` query over the
readings collection: one result per distinct requested id that is
present in the store; the `angle` field of each is read. -/
def queryAnglesIn (store : List (String × Reading)) (ids : List String) : List ℚ :=
  ids.dedup.filterMap (fun i => (lookupReading store i).map (·.angle))

/-- The session document created when no active session exists
(lines 133-156 of the progress function): seeded with the triggering
reading, repetition count 0, `min = max = angle`, id list `[rid]`. -/
def freshSession (rid : String) (r : Reading) : Session :=
  { repsCompleted := 0
    readingIds := [rid]
    minAngle := r.angle
    maxAngle := r.angle
    averageAngle := none
    status := SStatus.active
    sessionStartTime := r.timestamp
    sessionEndTime := none
    completedAt := none }

/-- The `assignedExercises` query: status `in ["assigned","in_progress"]`
and `exerciseId == eid`, limit 1 — in the one-assignment model it
returns the assignment exactly when it matches. -/
def queryAssigned (st : St) (eid : String) : Option Assigned :=
  if st.assigned.exerciseId = eid ∧
      (st.assigned.status = AStatus.assigned ∨ st.assigned.status = AStatus.inProgress) then
    some st.assigned
  else none

/-- The `exerciseProgress` query: `status == "active"`, limit 1. -/
def queryActiveSession (st : St) : Option Session :=
  st.session.bind (fun s => if s.status = SStatus.active then some s else none)

/-- Whether `reading.angle` lies in the assignment's target band
(`reading.angle >= targetAngleMin && reading.angle <= targetAngleMax`). -/
def inBand (a : Assigned) (x : ℚ) : Prop :=
  a.targetAngleMin ≤ x ∧ x ≤ a.targetAngleMax

instance (a : Assigned) (x : ℚ) : Decidable (inBand a x) := by
  unfold inBand; infer_instance

/-- Whether the invocation reaches the fatal call of line 188.  The
rep-counting block (lines 175-199) runs only when the new reading is
in range, and fetches the last contributing reading only when the
contributing list is non-empty; there the source calls
`previousReadingDoc.exists()`.  This Cloud Function uses the
firebase-admin SDK (`admin.firestore()`), whose `DocumentSnapshot`
exposes `exists` as a boolean property, not a method, so the call
throws `TypeError: previousReadingDoc.exists is not a function`.  The
outer catch (line 234) swallows it and the invocation returns without
ever reaching `progressDoc.update(updates)` — so the rep increment,
the average, the completion check and the whole update object are all
lost whenever this predicate holds. -/
def throwsAtExists (a : Assigned) (pd : Session) (r : Reading) : Prop :=
  inBand a r.angle ∧ pd.readingIds ≠ []

instance (a : Assigned) (pd : Session) (r : Reading) : Decidable (throwsAtExists a pd r) := by
  unfold throwsAtExists; infer_instance

/-- The session document after a completed `progressDoc.update(updates)`
— reachable only on the non-throwing paths, i.e. when the reading is
out of range (or the contributing list was empty).  On those paths
the rep-counting block never assigns `updates.repsCompleted`, so the
completion test `updates.repsCompleted >= targetReps` compares
`undefined` and is false: the update carries the `arrayUnion` of the
reading id, min/max with the JS `||` fallback and the recomputed
rolling average, while the count, status and completion fields of the
stored document are untouched. -/
def updatedSession (store : List (String × Reading)) (rid : String)
    (r : Reading) (pd : Session) : Session :=
  { pd with
    readingIds := arrayUnion pd.readingIds rid
    minAngle := min (jsOrQ pd.minAngle r.angle) r.angle
    maxAngle := max (jsOrQ pd.maxAngle r.angle) r.angle
    averageAngle := some (listMean (queryAnglesIn store (takeLast 10 (pd.readingIds ++ [rid])))) }

/-- One invocation of the `updateExerciseProgress` Cloud Function on the
reading document `(rid, r)` (already stored — the function is an
`onCreate` trigger), with `now` the value of `Date.now()` during the
invocation (unused on every reachable path: `Date.now()` is read only
inside the unreachable completion branch).  Mirrors lines 90-237 of
the functions file: gate on a truthy `exerciseId` and a matching
assigned/in-progress assignment; find the active session or create a
fresh one (the `add` of lines 135-149 persists even when the rest of
the invocation then fails); then either throw at
`previousReadingDoc.exists()` — the caught `TypeError` ends the
invocation with no update — or apply the update object. -/
def progressTrigger (st : St) (_now : ℕ) (rid : String) (r : Reading) : St :=
  if jsTruthyStr r.exerciseId = false then st
  else
    match queryAssigned st r.exerciseId with
    | none => st
    | some a =>
      match queryActiveSession st with
      | none =>
        if throwsAtExists a (freshSession rid r) r then
          { st with session := some (freshSession rid r) }
        else
          { st with session := some (updatedSession st.readings rid r (freshSession rid r)) }
      | some s =>
        if throwsAtExists a s r then st
        else { st with session := some (updatedSession st.readings rid r s) }

/-- Creation of the reading document (the ingestion write that fires the
trigger). -/
def createReading (st : St) (rid : String) (r : Reading) : St :=
  { st with readings := (rid, r) :: st.readings }

/-- Normal processing of one new measurement: the document is created,
then the progress trigger runs on it. -/
def processReading (st : St) (now : ℕ) (rid : String) (r : Reading) : St :=
  progressTrigger (createReading st rid r) now rid r

/-- Repetition count of the (at most one) session, if any. -/
def sessionReps (st : St) : Option ℕ := st.session.map (·.repsCompleted)

/-- Run a list of deliveries `(now, rid, reading)` in order. -/
def runDeliveries (st : St) : List (ℕ × String × Reading) → St
  | [] => st
  | (now, rid, r) :: rest => runDeliveries (processReading st now rid r) rest

/-- All intermediate states of a run, the initial state included. -/
def traceDeliveries (st : St) : List (ℕ × String × Reading) → List St
  | [] => [st]
  | (now, rid, r) :: rest => st :: traceDeliveries (processReading st now rid r) rest

/-- Stored `minAngle` of the session, if any. -/
def sessionMin (st : St) : Option ℚ := st.session.map (·.minAngle)

/-- Stored `maxAngle` of the session, if any. -/
def sessionMax (st : St) : Option ℚ := st.session.map (·.maxAngle)

/-- Stored `averageAngle` of the session, if any. -/
def sessionAvg (st : St) : Option (Option ℚ) := st.session.map (·.averageAngle)

/-- Whether the assigned exercise has been marked completed. -/
def assignedCompleted (st : St) : Prop := st.assigned.status = AStatus.completed

instance (st : St) : Decidable (assignedCompleted st) := by
  unfold assignedCompleted; infer_instance

/-- Fetch the angles of a list of reading ids; `none` when any id is
absent from the store. -/
def lookupAngles (store : List (String × Reading)) : List String → Option (List ℚ)
  | [] => some []
  | i :: is =>
    match lookupReading store i, lookupAngles store is with
    | some r, some as => some (r.angle :: as)
    | _, _ => none

end Progress

namespace SerialParse

/-- JavaScript `\s` on the characters that can occur on a serial line
(ASCII whitespace; the exotic Unicode space classes are outside the
device alphabet). -/
def isWs (c : Char) : Bool :=
  c = ' ' ∨ c = '\t' ∨ c = '\n' ∨ c = '\r' ∨ c = '\x0b' ∨ c = '\x0c'

/-- The character class `[\d.]` of the `Angle:` pattern. -/
def isNumCh (c : Char) : Bool := c.isDigit || c = '.'

/-- The character class `[\d.-]` of the `Roll:`/`Pitch:`/`Yaw:` patterns. -/
def isNumDashCh (c : Char) : Bool := c.isDigit || c = '.' || c = '-'

/-- One attempt of the pattern `label\s*(cls+)` anchored at the start of
`s`: the label literal, then greedily skipped whitespace, then a
non-empty maximal run of class characters, which is the captured
group. -/
def tryMatchAt (label : List Char) (cls : Char → Bool) (s : List Char) : Option (List Char) :=
  if label.isPrefixOf s then
    let tok := ((s.drop label.length).dropWhile isWs).takeWhile cls
    if tok.isEmpty then none else some tok
  else none

/-- `line.match(/label\s*(cls+)/)` restricted to the capture group:
leftmost match, scanning start positions left to right exactly as the
regex engine does. -/
def scanFor (label : List Char) (cls : Char → Bool) : List Char → Option (List Char)
  | [] => none
  | c :: cs =>
    match tryMatchAt label cls (c :: cs) with
    | some t => some t
    | none => scanFor label cls cs

/-- Digit run to a natural number, `c.toNat - 48` per digit. -/
def digitsToNat (ds : List Char) : ℕ := ds.foldl (fun n c => 10 * n + (c.toNat - 48)) 0

/-- The sign-free tail of `parseFloat`: greedy integer digits, then an
optional dot and greedy fraction digits; anything after is ignored;
`NaN` (modelled `none`) when no digit was consumed at all. -/
def jsParseTail (s2 : List Char) : Option ℚ :=
  let ip := s2.takeWhile Char.isDigit
  let s3 := s2.drop ip.length
  let fp :=
    match s3 with
    | '.' :: r => r.takeWhile Char.isDigit
    | _ => []
  if ip.isEmpty ∧ fp.isEmpty then none
  else some ((digitsToNat ip : ℚ) + (digitsToNat fp : ℚ) / (10 : ℚ) ^ fp.length)

/-- JavaScript `parseFloat` on the strings producible by the capture
classes above (digits, dots, dashes — no exponent letter can occur):
leading whitespace skipped, optional sign, then the sign-free tail. -/
def jsParseFloat (s : List Char) : Option ℚ :=
  let s1 := s.dropWhile isWs
  let neg : Bool := decide (s1.head? = some '-')
  let sign : Bool := decide (s1.head? = some '-' ∨ s1.head? = some '+')
  let s2 := if sign then s1.tail else s1
  (jsParseTail s2).map (fun v => if neg then -v else v)

/-- The structured result of `parseSerialLine`; a field is `none` when
`parseFloat` returned `NaN` for its captured token (the source stores
the `NaN` without checking). -/
structure SerialReading where
  angle : Option ℚ
  roll : Option ℚ
  pitch : Option ℚ
  yaw : Option ℚ
  raw : List Char
deriving DecidableEq, Repr

/-- `parseSerialLine` of the Arduino hook: all four labelled patterns
must match somewhere on the line, else `null`. -/
def parseSerialLine (line : List Char) : Option SerialReading :=
  match scanFor ("Angle:".toList) isNumCh line,
        scanFor ("Roll:".toList) isNumDashCh line,
        scanFor ("Pitch:".toList) isNumDashCh line,
        scanFor ("Yaw:".toList) isNumDashCh line with
  | some a, some r, some p, some y =>
    some { angle := jsParseFloat a, roll := jsParseFloat r,
           pitch := jsParseFloat p, yaw := jsParseFloat y, raw := line }
  | _, _, _, _ => none

/-- Spec-side predicate (from the spec's words, for comparison with the
code): the line contains, somewhere, the given label followed by
optional whitespace and then a non-empty run of characters of the
class. -/
def ContainsLabeledRun (label : List Char) (cls : Char → Bool) (line : List Char) : Prop :=
  ∃ u w tok v, line = u ++ label ++ w ++ tok ++ v ∧
    w.all isWs = true ∧ tok ≠ [] ∧ tok.all cls = true

/-- Spec-side predicate: a signed decimal numeral — optional minus sign,
then digits with at most one dot and at least one digit. -/
def SignedDecimal (t : List Char) : Prop :=
  ∃ (neg : Bool) (ip fp : List Char),
    t = (if neg then ['-'] else []) ++ ip ++ (if fp = [] then [] else '.' :: fp) ∧
    ip.all Char.isDigit = true ∧ fp.all Char.isDigit = true ∧ (ip ≠ [] ∨ fp ≠ [])

/-- Spec-side predicate: the line contains the label followed by
optional whitespace and a whitespace-delimited token that is a signed
decimal numeral. -/
def ContainsLabeledDecimal (label : List Char) (line : List Char) : Prop :=
  ∃ u w tok v, line = u ++ label ++ w ++ tok ++ v ∧
    w.all isWs = true ∧ SignedDecimal tok ∧
    (v = [] ∨ isWs v.head! = true)

/-- Render a digit below ten as its character. -/
def digitChar : ℕ → Char
  | 0 => '0' | 1 => '1' | 2 => '2' | 3 => '3' | 4 => '4'
  | 5 => '5' | 6 => '6' | 7 => '7' | 8 => '8' | _ => '9'

/-- Positional value of a digit list (most significant first). -/
def digitsVal (ds : List ℕ) : ℕ := ds.foldl (fun n d => 10 * n + d) 0

/-- Render the optional fraction part `.ddd` of a numeral. -/
def dotRender (fp : List ℕ) : List Char :=
  if fp = [] then [] else '.' :: fp.map digitChar

/-- Render a decimal numeral from sign and digit lists. -/
def renderNum (neg : Bool) (ip fp : List ℕ) : List Char :=
  (if neg then ['-'] else []) ++ ip.map digitChar ++ dotRender fp

/-- The rational value a rendered numeral denotes. -/
def numValue (neg : Bool) (ip fp : List ℕ) : ℚ :=
  if neg then -((digitsVal ip : ℚ) + (digitsVal fp : ℚ) / (10 : ℚ) ^ fp.length)
  else (digitsVal ip : ℚ) + (digitsVal fp : ℚ) / (10 : ℚ) ^ fp.length

/-- A well-formed serial line in the device protocol: the four labelled
fields in order, separated by arbitrary whitespace (`w0` may be empty
leading whitespace, `w8` trailing text of whitespace). -/
def mkLine (w0 w1 w2 w3 w4 w5 w6 w7 w8 : List Char)
    (aTok rTok pTok yTok : List Char) : List Char :=
  w0 ++ "Angle:".toList ++ w1 ++ aTok ++ w2 ++ "Roll:".toList ++ w3 ++ rTok ++
    w4 ++ "Pitch:".toList ++ w5 ++ pTok ++ w6 ++ "Yaw:".toList ++ w7 ++ yTok ++ w8

end SerialParse

namespace Ingest

/-- `buffer.split("\n")` with the last fragment separated off:
`splitNl s = (complete lines, trailing text after the last newline)`.
This matches `const lines = buffer.split("\n"); buffer = lines.pop() || ""`. -/
def splitNl : List Char → List (List Char) × List Char
  | [] => ([], [])
  | c :: cs =>
    if c = '\n' then ([] :: (splitNl cs).1, (splitNl cs).2)
    else
      match (splitNl cs).1 with
      | [] => ([], c :: (splitNl cs).2)
      | l :: ls2 => ((c :: l) :: ls2, (splitNl cs).2)

/-- One iteration of the read loop on a received chunk: append the chunk
to the buffer, split on newlines, emit the complete lines, retain the
trailing fragment as the new buffer. -/
def feedChunk (buf chunk : List Char) : List (List Char) × List Char :=
  splitNl (buf ++ chunk)

/-- Run the read loop over a whole chunk sequence, accumulating every
emitted line in order, starting from buffer `buf`. -/
def runChunks (buf : List Char) : List (List Char) → List (List Char) × List Char
  | [] => ([], buf)
  | ch :: rest =>
    ((feedChunk buf ch).1 ++ (runChunks (feedChunk buf ch).2 rest).1,
      (runChunks (feedChunk buf ch).2 rest).2)

end Ingest

namespace Forwarder

/-- The reading document as seen by `onReadingCreated`, with the
delivery-outcome fields it writes (absent until written). -/
structure MeasDoc where
  angle : ℚ
  roll : ℚ
  pitch : ℚ
  yaw : ℚ
  timestamp : ℕ
  exerciseId : Option String
  sentToN8N : Option Bool
  n8nResponse : Option String
  n8nStatusCode : Option ℕ
deriving DecidableEq, Repr

/-- Outcome of the webhook `fetch` + body read: transport success with
body text and HTTP status, or a thrown transport error with message. -/
inductive FetchOutcome where
  | ok (body : String) (status : ℕ)
  | err (msg : String)
deriving DecidableEq, Repr

/-- The `recording_status` field of the webhook payload:
`reading.exerciseId ? "active" : "passive"`. -/
def recordingStatus (r : MeasDoc) : String :=
  if jsTruthyOptStr r.exerciseId then "active" else "passive"

/-- One invocation of `onReadingCreated` on a reading document, given
the transport outcome: the snapshot update it performs.  Success
records the flag, raw body and status code; a caught transport error
records `false`, the error message and status code `0`. -/
def onReadingCreated (r : MeasDoc) : FetchOutcome → MeasDoc
  | FetchOutcome.ok body status =>
    { r with sentToN8N := some true, n8nResponse := some body, n8nStatusCode := some status }
  | FetchOutcome.err msg =>
    { r with sentToN8N := some false, n8nResponse := some msg, n8nStatusCode := some 0 }

end Forwarder

namespace Recording

/-- Result of the n8n exercise-id request made by `startRecording` when
no exercise id is supplied: a JSON object whose `exerciseId` field may
be absent or empty, or a thrown error. -/
inductive IdFetch where
  | ok (exerciseId : Option String)
  | err
deriving DecidableEq, Repr

/-- The exercise id obtained from the n8n request:
`data.exerciseId || "manual-" + Date.now()` on a response, `"unknown"`
when the request throws (the catch branch). -/
def fetchedId (fetched : IdFetch) (now : ℕ) : String :=
  match fetched with
  | IdFetch.ok d => if jsTruthyOptStr d then d.getD "" else "manual-" ++ toString now
  | IdFetch.err => "unknown"

/-- The value `startRecording` leaves in `currentExerciseIdRef`:
a supplied truthy id verbatim; otherwise the fetched id. -/
def startRecordingId (param : Option String) (fetched : IdFetch) (now : ℕ) : String :=
  match param with
  | some e => if e ≠ "" then e else fetchedId fetched now
  | none => fetchedId fetched now

/-- The `exerciseId` field `saveReading` persists:
`currentExerciseIdRef.current ?? "unassigned"`. -/
def savedExerciseId (ref : Option String) : String := ref.getD "unassigned"

/-- The exercise-id ref values reachable in the hook: `undefined`
(initial, or after `stopRecording`) or a value set by `startRecording`. -/
def ReachableRef (ref : Option String) : Prop :=
  ref = none ∨ ∃ p f n, ref = some (startRecordingId p f n)

end Recording

namespace Examples

open Progress

/-- An assignment with band `[45, 90]` and a large target. -/
def asgn (treps : ℕ) : Assigned :=
  { exerciseId := "ex", targetAngleMin := 45, targetAngleMax := 90,
    targetReps := treps, status := AStatus.assigned, completedAt := none }

/-- Initial state: no readings, no session, one active assignment. -/
def init (treps : ℕ) : St := { readings := [], assigned := asgn treps, session := none }

/-- A reading bound to the assignment`s exercise. -/
def mkR (a : ℚ) : Reading := { exerciseId := "ex", angle := a, timestamp := 0 }

/-- The spec's rep-counting example sequence [30, 50, 95, 60, 40, 70]. -/
def seqC2 : List (ℕ × String × Reading) :=
  [(0, "r0", mkR 30), (1, "r1", mkR 50), (2, "r2", mkR 95),
   (3, "r3", mkR 60), (4, "r4", mkR 40), (5, "r5", mkR 70)]

/-- Angle 0 then angle 20, both outside the band `[45, 90]` (so neither
delivery aborts): exhibits the `minAngle || angle` falsy reset. -/
def seqC4 : List (ℕ × String × Reading) :=
  [(0, "a0", mkR 0), (1, "a1", mkR 20)]

/-- Three distinct deliveries for the redelivery scenario. -/
def seqC7 : List (ℕ × String × Reading) :=
  [(0, "r0", mkR 30), (1, "r1", mkR 50), (2, "r2", mkR 30)]

/-- With a target of 1 rep: the reading 50 enters the band [45, 90] from
30, so the intended logic would count rep 1 = target and complete. -/
def seqC6 : List (ℕ × String × Reading) :=
  [(0, "r0", mkR 30), (1, "r1", mkR 50)]

/-- A concrete active session used by hypothesis-discharging witnesses. -/
def sessW : Session :=
  { repsCompleted := 1, readingIds := ["r0", "r1"], minAngle := 30, maxAngle := 50,
    averageAngle := none, status := SStatus.active, sessionStartTime := 0,
    sessionEndTime := none, completedAt := none }

/-- A concrete state with that active session and the two stored
readings. -/
def stW : St :=
  { readings := [("r1", mkR 50), ("r0", mkR 30)], assigned := asgn 100,
    session := some sessW }

/-- An active session with zero reps and one contributing out-of-range
reading. -/
def sessW0 : Session :=
  { repsCompleted := 0, readingIds := ["r0"], minAngle := 30, maxAngle := 30,
    averageAngle := none, status := SStatus.active, sessionStartTime := 0,
    sessionEndTime := none, completedAt := none }

/-- A state holding that session and its one stored reading (angle 30,
below the band): delivering an in-range reading to it is exactly the
claim's rep-increment scenario. -/
def stW0 : St :=
  { readings := [("r0", mkR 30)], assigned := asgn 100, session := some sessW0 }

end Examples

open Progress Ingest SerialParse

lemma progressTrigger_eq_abort (st : St) (now : ℕ) (rid : String) (r : Reading)
    (a : Assigned) (s : Session)
    (hid : r.exerciseId ≠ "") (hq : queryAssigned st r.exerciseId = some a)
    (hqs : queryActiveSession st = some s)
    (hth : throwsAtExists a s r) :
    progressTrigger st now rid r = st := by
  simp [progressTrigger, jsTruthyStr, hid, hq, hqs, hth]

lemma progressTrigger_eq_update (st : St) (now : ℕ) (rid : String) (r : Reading)
    (a : Assigned) (s : Session)
    (hid : r.exerciseId ≠ "") (hq : queryAssigned st r.exerciseId = some a)
    (hqs : queryActiveSession st = some s)
    (hth : ¬ throwsAtExists a s r) :
    progressTrigger st now rid r =
      { st with session := some (updatedSession st.readings rid r s) } := by
  simp [progressTrigger, jsTruthyStr, hid, hq, hqs, hth]

lemma progressTrigger_eq_fresh_abort (st : St) (now : ℕ) (rid : String) (r : Reading)
    (a : Assigned)
    (hid : r.exerciseId ≠ "") (hq : queryAssigned st r.exerciseId = some a)
    (hqs : queryActiveSession st = none)
    (hin : inBand a r.angle) :
    progressTrigger st now rid r = { st with session := some (freshSession rid r) } := by
  have hth : throwsAtExists a (freshSession rid r) r := ⟨hin, by simp [freshSession]⟩
  simp [progressTrigger, jsTruthyStr, hid, hq, hqs, hth]

lemma progressTrigger_eq_fresh_update (st : St) (now : ℕ) (rid : String) (r : Reading)
    (a : Assigned)
    (hid : r.exerciseId ≠ "") (hq : queryAssigned st r.exerciseId = some a)
    (hqs : queryActiveSession st = none)
    (hnin : ¬ inBand a r.angle) :
    progressTrigger st now rid r =
      { st with session := some (updatedSession st.readings rid r (freshSession rid r)) } := by
  have hth : ¬ throwsAtExists a (freshSession rid r) r := fun h => hnin h.1
  simp [progressTrigger, jsTruthyStr, hid, hq, hqs, hth]

lemma lookupReading_head (store : List (String × Reading)) (rid : String) (r : Reading) :
    lookupReading ((rid, r) :: store) rid = some r := by
  simp [lookupReading]

lemma sessionReps_update (st : St) (rid : String) (r : Reading) (pd : Session) :
    sessionReps { st with session := some (updatedSession st.readings rid r pd) } =
      some pd.repsCompleted := rfl

lemma sessionMin_update (st : St) (rid : String) (r : Reading) (pd : Session) :
    sessionMin { st with session := some (updatedSession st.readings rid r pd) } =
      some (min (jsOrQ pd.minAngle r.angle) r.angle) := rfl

lemma sessionMax_update (st : St) (rid : String) (r : Reading) (pd : Session) :
    sessionMax { st with session := some (updatedSession st.readings rid r pd) } =
      some (max (jsOrQ pd.maxAngle r.angle) r.angle) := rfl

lemma sessionAvg_update (st : St) (rid : String) (r : Reading) (pd : Session) :
    sessionAvg { st with session := some (updatedSession st.readings rid r pd) } =
      some (some (listMean (queryAnglesIn st.readings (takeLast 10 (pd.readingIds ++ [rid]))))) := rfl

lemma updatedSession_ids (store : List (String × Reading)) (rid : String) (r : Reading)
    (pd : Session) :
    (updatedSession store rid r pd).readingIds = arrayUnion pd.readingIds rid := rfl

/-- Claim C1 (code bug): the claim describes the intended edge-triggered
rep counting (the function's own header says it counts reps when
readings fall within the target range), but the code cannot exhibit
it.  On the exact scenario the claim speaks about — an in-range
measurement (50 in [45, 90]) whose last contributing predecessor (30)
was out of range, i.e. the case in which a repetition must be counted
— the invocation throws `TypeError` at `previousReadingDoc.exists()`
(firebase-admin exposes `exists` as a property, not a method), the
outer catch swallows it and nothing is persisted: the count stays 0
and the contributing list does not even gain the new id. -/
theorem C1_never_increments_eval :
    inBand (Examples.asgn 100) 50 ∧ ¬ inBand (Examples.asgn 100) 30 ∧
    (processReading Examples.stW0 7 "r1" (Examples.mkR 50)).session = some Examples.sessW0 ∧
    sessionReps (processReading Examples.stW0 7 "r1" (Examples.mkR 50)) = some 0 ∧
    (processReading Examples.stW0 7 "r1" (Examples.mkR 50)).session.map (·.readingIds) =
      some ["r0"] := by
  refine ⟨by decide, by decide, by decide, by decide, by decide⟩

/-- Counterexample to claim C2: on [30, 50, 95, 60, 40, 70] with band
[45, 90] the code counts 0 repetitions, not 2 — every in-range reading
(indices 1, 3 and 5) dies at the `previousReadingDoc.exists()`
TypeError before any repetition can be counted. -/
theorem C2_counterexample :
    sessionReps (runDeliveries (Examples.init 100) Examples.seqC2) = some 0 ∧
      sessionReps (runDeliveries (Examples.init 100) Examples.seqC2) ≠ some 2 := by
  decide

/-- Amended claim C2: the run counts exactly 0 repetitions.  The session
is seeded by the out-of-range reading 30 and the count never moves;
the aborted in-range invocations (indices 1, 3, 5) do not even
contribute their ids, leaving the contributing list [r0, r2, r4]. -/
theorem C2_amended :
    (traceDeliveries (Examples.init 100) Examples.seqC2).map sessionReps =
      [none, some 0, some 0, some 0, some 0, some 0, some 0] ∧
    (runDeliveries (Examples.init 100) Examples.seqC2).session.map (·.readingIds) =
      some ["r0", "r2", "r4"] := by
  refine ⟨by decide, by decide⟩

/-- Counterexample to claim C4: with stored `minAngle = 0` the JS
`progressData.minAngle || reading.angle` fallback discards the stored
0, and a following reading of 20 raises the persisted minimum to 20,
violating the claimed `min(m, angle) ≤ m` at `m = 0`.  Both readings
are outside the band [45, 90], so neither invocation aborts. -/
theorem C4_counterexample :
    sessionMin (runDeliveries (Examples.init 100) [(0, "a0", Examples.mkR 0)]) = some 0 ∧
    sessionMin (runDeliveries (Examples.init 100) Examples.seqC4) = some 20 ∧
    ¬ ((20 : ℚ) ≤ 0) := by
  refine ⟨by decide, by decide, by norm_num⟩

lemma lookupAngles_cons (store : List (String × Reading)) (i : String) (is : List String)
    (r : Reading) (as : List ℚ)
    (hi : lookupReading store i = some r) (his : lookupAngles store is = some as) :
    lookupAngles store (i :: is) = some (r.angle :: as) := by
  simp [lookupAngles, hi, his]

lemma lookupAngles_append (store : List (String × Reading)) (l1 l2 : List String)
    (a1 a2 : List ℚ)
    (h1 : lookupAngles store l1 = some a1) (h2 : lookupAngles store l2 = some a2) :
    lookupAngles store (l1 ++ l2) = some (a1 ++ a2) := by
  induction l1 generalizing a1 with
  | nil =>
    simp [lookupAngles] at h1
    subst h1
    simpa using h2
  | cons i is ih =>
    rw [lookupAngles] at h1
    rcases hri : lookupReading store i with _ | rr <;> rw [hri] at h1
    · exact absurd h1 (by simp)
    rcases has : lookupAngles store is with _ | as2 <;> rw [has] at h1
    · exact absurd h1 (by simp)
    simp at h1
    subst h1
    rw [List.cons_append]
    exact lookupAngles_cons _ _ _ _ _ hri (ih _ has)

lemma lookupAngles_length (store : List (String × Reading)) (l : List String) (as : List ℚ)
    (h : lookupAngles store l = some as) : as.length = l.length := by
  induction l generalizing as with
  | nil => simp [lookupAngles] at h; simp [h.symm]
  | cons i is ih =>
    rw [lookupAngles] at h
    rcases hri : lookupReading store i with _ | rr <;> rw [hri] at h
    · exact absurd h (by simp)
    rcases has : lookupAngles store is with _ | as2 <;> rw [has] at h
    · exact absurd h (by simp)
    simp at h
    subst h
    simp [ih _ has]

lemma lookupAngles_drop (store : List (String × Reading)) (n : ℕ) (l : List String)
    (as : List ℚ) (h : lookupAngles store l = some as) :
    lookupAngles store (l.drop n) = some (as.drop n) := by
  induction n generalizing l as with
  | zero => simpa using h
  | succ m ih =>
    cases l with
    | nil =>
      simp [lookupAngles] at h
      subst h
      simp [lookupAngles]
    | cons i is =>
      rw [lookupAngles] at h
      rcases hri : lookupReading store i with _ | rr <;> rw [hri] at h
      · exact absurd h (by simp)
      rcases has : lookupAngles store is with _ | as2 <;> rw [has] at h
      · exact absurd h (by simp)
      simp at h
      subst h
      simpa using ih _ _ has

lemma lookupAngles_filterMap (store : List (String × Reading)) (l : List String)
    (as : List ℚ) (h : lookupAngles store l = some as) :
    l.filterMap (fun i => (lookupReading store i).map (·.angle)) = as := by
  induction l generalizing as with
  | nil => simp [lookupAngles] at h; simp [h.symm]
  | cons i is ih =>
    rw [lookupAngles] at h
    rcases hri : lookupReading store i with _ | rr <;> rw [hri] at h
    · exact absurd h (by simp)
    rcases has : lookupAngles store is with _ | as2 <;> rw [has] at h
    · exact absurd h (by simp)
    simp at h
    subst h
    simp [List.filterMap_cons, hri, ih _ has]

lemma queryAnglesIn_of_nodup (store : List (String × Reading)) (ids : List String)
    (as : List ℚ) (hnd : ids.Nodup) (h : lookupAngles store ids = some as) :
    queryAnglesIn store ids = as := by
  rw [queryAnglesIn, List.dedup_eq_self.mpr hnd, lookupAngles_filterMap _ _ _ h]

lemma takeLast_lookupAngles (store : List (String × Reading)) (n : ℕ) (l : List String)
    (as : List ℚ) (h : lookupAngles store l = some as) :
    lookupAngles store (takeLast n l) = some (takeLast n as) := by
  rw [takeLast, takeLast, lookupAngles_length _ _ _ h]
  exact lookupAngles_drop _ _ _ _ h

/-- Amended claim C4: only an out-of-range measurement reaches
`progressDoc.update(updates)`.  There the update sets
`minAngle := min(minAngle || angle, angle)` and
`maxAngle := max(maxAngle || angle, angle)` — the stored extremum is
kept only when it is non-zero (JS falsy fallback) — and whenever the
stored `minAngle` is non-zero the new minimum is `min(m, angle) ≤ m`,
symmetrically for the maximum.  An in-range measurement against a
session with a non-empty contributing list (always the case for a
stored session) aborts at the `previousReadingDoc.exists()` TypeError
and leaves the stored extrema untouched. -/
theorem C4_minmax_amended
    (st : St) (now : ℕ) (rid : String) (r : Reading) (s : Session)
    (hid : r.exerciseId ≠ "")
    (hmatch : st.assigned.exerciseId = r.exerciseId)
    (hact : st.assigned.status = AStatus.assigned ∨ st.assigned.status = AStatus.inProgress)
    (hs : st.session = some s) (hsa : s.status = SStatus.active) :
    (¬ inBand st.assigned r.angle →
      sessionMin (processReading st now rid r) = some (min (jsOrQ s.minAngle r.angle) r.angle) ∧
      sessionMax (processReading st now rid r) = some (max (jsOrQ s.maxAngle r.angle) r.angle) ∧
      (s.minAngle ≠ 0 →
        sessionMin (processReading st now rid r) = some (min s.minAngle r.angle) ∧
        min s.minAngle r.angle ≤ s.minAngle) ∧
      (s.maxAngle ≠ 0 →
        sessionMax (processReading st now rid r) = some (max s.maxAngle r.angle) ∧
        s.maxAngle ≤ max s.maxAngle r.angle)) ∧
    (inBand st.assigned r.angle → s.readingIds ≠ [] →
      sessionMin (processReading st now rid r) = some s.minAngle ∧
      sessionMax (processReading st now rid r) = some s.maxAngle) := by
  have hq : queryAssigned (createReading st rid r) r.exerciseId = some st.assigned := by
    simp [queryAssigned, createReading, hmatch, hact]
  have hqs : queryActiveSession (createReading st rid r) = some s := by
    simp [queryActiveSession, createReading, hs, hsa]
  constructor
  · intro hnin
    have hth : ¬ throwsAtExists st.assigned s r := fun hh => hnin hh.1
    rw [processReading, progressTrigger_eq_update _ now rid r _ s hid hq hqs hth,
      sessionMin_update, sessionMax_update]
    refine ⟨rfl, rfl, fun hm => ⟨by rw [jsOrQ, if_neg hm], min_le_left _ _⟩,
      fun hM => ⟨by rw [jsOrQ, if_neg hM], le_max_left _ _⟩⟩
  · intro hin hne
    rw [processReading, progressTrigger_eq_abort _ now rid r _ s hid hq hqs ⟨hin, hne⟩]
    constructor <;> simp [sessionMin, sessionMax, createReading, hs]

/-- Witness for the amended C4: stored extrema 30 and 50, out-of-range
reading 40 — the persisted extrema stay 30 and 50. -/
theorem C4_witness :
    sessionMin (processReading Examples.stW 8 "r2" (Examples.mkR 40)) = some 30 ∧
    sessionMax (processReading Examples.stW 8 "r2" (Examples.mkR 40)) = some 50 := by
  have h := (C4_minmax_amended Examples.stW 8 "r2" (Examples.mkR 40) Examples.sessW
    (by decide) (by decide) (Or.inl (by decide)) rfl rfl).1 (by decide)
  refine ⟨((h.2.2.1 (by decide)).1).trans (by decide),
    ((h.2.2.2 (by decide)).1).trans (by decide)⟩

/-- Counterexample to claim C5: an in-range measurement persists no
average at all.  The very first delivery of the in-range reading 50
seeds a session (the `add` of lines 135-149 persists) and then throws
at `previousReadingDoc.exists()`, so the stored `averageAngle` is
absent — not the mean 50 of the contributing measurements that the
claim requires after every invocation. -/
theorem C5_counterexample :
    sessionAvg (processReading (Examples.init 100) 0 "r0" (Examples.mkR 50)) = some none ∧
    (some (none : Option ℚ) ≠ some (some (50 : ℚ))) := by
  refine ⟨by decide, by decide⟩

/-- Amended claim C5: the rolling average is persisted only by the
invocations that reach `progressDoc.update(updates)`, i.e. those whose
measurement lies outside the target band.  For such a measurement
against an existing active session the stored `averageAngle` becomes
the arithmetic mean of the angles of at most the 10 most recent
contributing measurements — the tail of the prior contributing list
plus the current one — and on session creation it is the current angle
alone.  An in-range measurement persists no average: against a session
with a non-empty contributing list the invocation aborts at the
`previousReadingDoc.exists()` TypeError leaving the stored value
unchanged, and a session it freshly seeded is left with no
`averageAngle` field at all. -/
theorem C5_rolling_average
    (st : St) (now : ℕ) (rid : String) (r : Reading)
    (hid : r.exerciseId ≠ "")
    (hmatch : st.assigned.exerciseId = r.exerciseId)
    (hact : st.assigned.status = AStatus.assigned ∨ st.assigned.status = AStatus.inProgress) :
    (∀ s as, st.session = some s → s.status = SStatus.active →
      ¬ inBand st.assigned r.angle →
      s.readingIds.Nodup → rid ∉ s.readingIds →
      lookupAngles (createReading st rid r).readings s.readingIds = some as →
      sessionAvg (processReading st now rid r) =
        some (some (listMean (takeLast 10 (as ++ [r.angle]))))) ∧
    (queryActiveSession st = none → ¬ inBand st.assigned r.angle →
      sessionAvg (processReading st now rid r) = some (some r.angle)) ∧
    (∀ s, st.session = some s → s.status = SStatus.active →
      inBand st.assigned r.angle → s.readingIds ≠ [] →
      sessionAvg (processReading st now rid r) = some s.averageAngle) ∧
    (queryActiveSession st = none → inBand st.assigned r.angle →
      sessionAvg (processReading st now rid r) = some none) := by
  have hq : queryAssigned (createReading st rid r) r.exerciseId = some st.assigned := by
    simp [queryAssigned, createReading, hmatch, hact]
  have hhead : lookupReading (createReading st rid r).readings rid = some r :=
    lookupReading_head st.readings rid r
  refine ⟨?_, ?_, ?_, ?_⟩
  · intro s as hs hsa hnin hnd hnew has
    have hqs : queryActiveSession (createReading st rid r) = some s := by
      simp [queryActiveSession, createReading, hs, hsa]
    have hth : ¬ throwsAtExists st.assigned s r := fun hh => hnin hh.1
    rw [processReading, progressTrigger_eq_update _ now rid r _ s hid hq hqs hth,
      sessionAvg_update]
    have h1 : lookupAngles (createReading st rid r).readings [rid] = some [r.angle] :=
      lookupAngles_cons _ _ _ _ _ hhead rfl
    have happ : lookupAngles (createReading st rid r).readings (s.readingIds ++ [rid]) =
        some (as ++ [r.angle]) :=
      lookupAngles_append _ _ _ _ _ has h1
    have htl : lookupAngles (createReading st rid r).readings
        (takeLast 10 (s.readingIds ++ [rid])) = some (takeLast 10 (as ++ [r.angle])) :=
      takeLast_lookupAngles _ _ _ _ happ
    have hndall : (s.readingIds ++ [rid]).Nodup :=
      List.Nodup.append hnd (List.nodup_singleton rid)
        ((List.disjoint_singleton).mpr hnew)
    have hnd2 : (takeLast 10 (s.readingIds ++ [rid])).Nodup :=
      List.Nodup.sublist (List.drop_sublist _ _) hndall
    rw [queryAnglesIn_of_nodup _ _ _ hnd2 htl]
  · intro hns hnin
    have hqs : queryActiveSession (createReading st rid r) = none := hns
    rw [processReading, progressTrigger_eq_fresh_update _ now rid r _ hid hq hqs hnin,
      sessionAvg_update]
    have htl : takeLast 10 ((freshSession rid r).readingIds ++ [rid]) = [rid, rid] := by
      simp [freshSession, takeLast]
    rw [htl]
    have hdd : ([rid, rid] : List String).dedup = [rid] := by
      simp [List.dedup_cons_of_mem]
    rw [queryAnglesIn, hdd]
    simp [hhead, listMean]
  · intro s hs hsa hin hne
    have hqs : queryActiveSession (createReading st rid r) = some s := by
      simp [queryActiveSession, createReading, hs, hsa]
    rw [processReading, progressTrigger_eq_abort _ now rid r _ s hid hq hqs ⟨hin, hne⟩]
    simp [sessionAvg, createReading, hs]
  · intro hns hin
    have hqs : queryActiveSession (createReading st rid r) = none := hns
    rw [processReading, progressTrigger_eq_fresh_abort _ now rid r _ hid hq hqs hin]
    rfl

/-- Witness for the amended C5: prior contributing angles [30, 50], new
out-of-range reading 40 — the stored average is the mean of the last
at-most-10 angles [30, 50, 40]. -/
theorem C5_witness :
    sessionAvg (processReading Examples.stW 9 "r2" (Examples.mkR 40)) =
      some (some (listMean (takeLast 10 ([30, 50] ++ [40])))) :=
  (C5_rolling_average Examples.stW 9 "r2" (Examples.mkR 40)
    (by decide) (by decide) (Or.inl (by decide))).1
    Examples.sessW [30, 50] rfl rfl (by decide) (by decide) (by decide) (by decide)

/-- Claim C6 (code bug): the claim describes the intended completion
dynamics — and the function's header comment promises to mark
exercises completed when the threshold is reached — but the code can
never reach any threshold.  On the minimal completing scenario (target
1 rep, reading 30 then in-range reading 50, whose intended count
1 = target completes both documents) the invocation for the reading 50
throws `TypeError` at `previousReadingDoc.exists()` and is swallowed
whole: the count stays 0, the session stays active and neither the
session nor the assignment is ever marked completed. -/
theorem C6_never_completes_eval :
    sessionReps (runDeliveries (Examples.init 1) Examples.seqC6) = some 0 ∧
    (runDeliveries (Examples.init 1) Examples.seqC6).session.map (·.status) =
      some SStatus.active ∧
    ¬ assignedCompleted (runDeliveries (Examples.init 1) Examples.seqC6) ∧
    (runDeliveries (Examples.init 1) Examples.seqC6).assigned.completedAt = none := by
  refine ⟨by decide, by decide, by decide, by decide⟩

lemma queryAssigned_shape (st : St) (eid : String) (a : Assigned)
    (h : queryAssigned st eid = some a) :
    a = st.assigned ∧ st.assigned.exerciseId = eid ∧
      (st.assigned.status = AStatus.assigned ∨ st.assigned.status = AStatus.inProgress) := by
  rw [queryAssigned] at h
  split_ifs at h with hc
  exact ⟨(Option.some_injective _ h).symm, hc.1, hc.2⟩

lemma queryActiveSession_shape (st : St) (s : Session)
    (h : queryActiveSession st = some s) :
    st.session = some s ∧ s.status = SStatus.active := by
  rw [queryActiveSession] at h
  rcases hss : st.session with _ | s0 <;> rw [hss] at h
  · exact absurd h (by simp)
  · simp only [Option.some_bind] at h
    split_ifs at h with hc
    cases Option.some_injective _ h
    exact ⟨rfl, hc⟩

lemma repsZero_step (st : St) (now : ℕ) (rid : String) (r : Reading)
    (h : st.session = none ∨ ∃ s, st.session = some s ∧ s.repsCompleted = 0) :
    (processReading st now rid r).session = none ∨
      ∃ s, (processReading st now rid r).session = some s ∧ s.repsCompleted = 0 := by
  rw [processReading]
  set st1 := createReading st rid r with hst1
  have h1 : st1.session = none ∨ ∃ s, st1.session = some s ∧ s.repsCompleted = 0 := h
  by_cases hid : jsTruthyStr r.exerciseId = false
  · rw [progressTrigger, if_pos hid]
    exact h1
  have hid' : r.exerciseId ≠ "" := by simpa [jsTruthyStr] using hid
  rcases hqa : queryAssigned st1 r.exerciseId with _ | a
  · rw [progressTrigger, if_neg hid, hqa]
    exact h1
  rcases hqs : queryActiveSession st1 with _ | s
  · by_cases hin : inBand a r.angle
    · rw [progressTrigger_eq_fresh_abort st1 now rid r a hid' hqa hqs hin]
      exact Or.inr ⟨freshSession rid r, rfl, rfl⟩
    · rw [progressTrigger_eq_fresh_update st1 now rid r a hid' hqa hqs hin]
      exact Or.inr ⟨updatedSession st1.readings rid r (freshSession rid r), rfl, rfl⟩
  · obtain ⟨hss, hsact⟩ := queryActiveSession_shape _ _ hqs
    have hs0 : s.repsCompleted = 0 := by
      rcases h1 with hnone | ⟨s2, hs2, h0⟩
      · rw [hss] at hnone
        exact absurd hnone (by simp)
      · rw [hss] at hs2
        cases Option.some_injective _ hs2
        exact h0
    by_cases hth : throwsAtExists a s r
    · rw [progressTrigger_eq_abort st1 now rid r a s hid' hqa hqs hth]
      exact Or.inr ⟨s, hss, hs0⟩
    · rw [progressTrigger_eq_update st1 now rid r a s hid' hqa hqs hth]
      exact Or.inr ⟨updatedSession st1.readings rid r s, rfl, hs0⟩

/-- Claim C7: re-delivering a measurement id never increases the
repetition count and never adds a duplicate to the contributing list,
and the count is monotone, gaining at most 1 per distinct measurement.
This holds, in a degenerate form: (i) no invocation against an
existing active session ever changes the count at all — the only
increment path dies at the `previousReadingDoc.exists()` TypeError —
and an already-contributing id is never re-appended (`arrayUnion`);
(ii) along every delivery sequence from a sessionless state the count
is 0 throughout, so each measurement contributes zero increments and
the count never decreases. -/
theorem C7_no_double_count :
    (∀ (st : St) (now : ℕ) (rid : String) (r : Reading) (s s2 : Session),
      st.session = some s → s.status = SStatus.active →
      (progressTrigger st now rid r).session = some s2 →
      s2.repsCompleted = s.repsCompleted ∧
      (rid ∈ s.readingIds → s2.readingIds = s.readingIds)) ∧
    (∀ st0 : St, st0.session = none → ∀ ds : List (ℕ × String × Reading),
      sessionReps (runDeliveries st0 ds) = none ∨
        sessionReps (runDeliveries st0 ds) = some 0) := by
  constructor
  · intro st now rid r s s2 hs hsa htrig
    by_cases hid : jsTruthyStr r.exerciseId = false
    · rw [progressTrigger, if_pos hid] at htrig
      rw [hs] at htrig
      cases Option.some_injective _ htrig
      exact ⟨rfl, fun _ => rfl⟩
    have hid' : r.exerciseId ≠ "" := by simpa [jsTruthyStr] using hid
    have hqs : queryActiveSession st = some s := by
      simp [queryActiveSession, hs, hsa]
    rcases hqa : queryAssigned st r.exerciseId with _ | a
    · rw [progressTrigger, if_neg hid, hqa] at htrig
      have h2 : st.session = some s2 := htrig
      rw [hs] at h2
      cases Option.some_injective _ h2
      exact ⟨rfl, fun _ => rfl⟩
    · by_cases hth : throwsAtExists a s r
      · rw [progressTrigger_eq_abort st now rid r a s hid' hqa hqs hth] at htrig
        rw [hs] at htrig
        cases Option.some_injective _ htrig
        exact ⟨rfl, fun _ => rfl⟩
      · rw [progressTrigger_eq_update st now rid r a s hid' hqa hqs hth] at htrig
        have h2 : some (updatedSession st.readings rid r s) = some s2 := htrig
        cases Option.some_injective _ h2
        refine ⟨rfl, fun hmem => ?_⟩
        rw [updatedSession_ids, arrayUnion, if_pos hmem]
  · intro st0 h0 ds
    have h : ∀ (ds : List (ℕ × String × Reading)) (st : St),
        (st.session = none ∨ ∃ s, st.session = some s ∧ s.repsCompleted = 0) →
        ((runDeliveries st ds).session = none ∨
          ∃ s, (runDeliveries st ds).session = some s ∧ s.repsCompleted = 0) := by
      intro ds
      induction ds with
      | nil => intro st hst; exact hst
      | cons d rest ih =>
        intro st hst
        obtain ⟨now, rid, r⟩ := d
        exact ih _ (repsZero_step st now rid r hst)
    rcases h ds st0 (Or.inl h0) with hnone | ⟨s, hs, h0s⟩
    · left
      simp [sessionReps, hnone]
    · right
      simp [sessionReps, hs, h0s]

/-- Witness for C7: the three-delivery redelivery scenario from the
empty initial state ends with a session repetition count of 0. -/
theorem C7_witness :
    sessionReps (runDeliveries (Examples.init 100) Examples.seqC7) = none ∨
      sessionReps (runDeliveries (Examples.init 100) Examples.seqC7) = some 0 :=
  C7_no_double_count.2 (Examples.init 100) rfl Examples.seqC7

lemma manualId_ne_empty (x : String) : ("manual-" ++ x) ≠ "" := by
  intro h
  have hl := congrArg String.length h
  simp [String.length_append] at hl
  exact absurd hl.1 (by decide)

lemma fetchedId_ne_empty (f : Recording.IdFetch) (n : ℕ) :
    Recording.fetchedId f n ≠ "" := by
  rcases f with d | _
  · rcases d with _ | e
    · simpa [Recording.fetchedId, jsTruthyOptStr] using manualId_ne_empty (toString n)
    · by_cases he : e = ""
      · simpa [Recording.fetchedId, jsTruthyOptStr, he] using manualId_ne_empty (toString n)
      · simp [Recording.fetchedId, jsTruthyOptStr, he]
  · exact (by decide : ("unknown" : String) ≠ "")

lemma startRecordingId_ne_empty (p : Option String) (f : Recording.IdFetch) (n : ℕ) :
    Recording.startRecordingId p f n ≠ "" := by
  rcases p with _ | e
  · exact fetchedId_ne_empty f n
  · simp only [Recording.startRecordingId]
    by_cases he : e = ""
    · rw [if_neg (by simpa using he)]
      exact fetchedId_ne_empty f n
    · rw [if_pos he]
      exact he

/-- Claim C9: the forwarder writes the delivery outcome onto the
measurement in one update — on transport success the flag true, the
raw body and the HTTP status; on a thrown transport error the flag
false, the error message and status code 0 (non-empty whenever the
error message is); and the payload classification is `"active"`
exactly when the measurement carries a non-empty exercise id. -/
theorem C9_forwarder_writeback (r : Forwarder.MeasDoc) (body msg : String) (status : ℕ) :
    (Forwarder.onReadingCreated r (Forwarder.FetchOutcome.ok body status) =
      { r with sentToN8N := some true, n8nResponse := some body,
               n8nStatusCode := some status }) ∧
    (Forwarder.onReadingCreated r (Forwarder.FetchOutcome.err msg) =
      { r with sentToN8N := some false, n8nResponse := some msg,
               n8nStatusCode := some 0 }) ∧
    (msg ≠ "" →
      (Forwarder.onReadingCreated r (Forwarder.FetchOutcome.err msg)).n8nResponse ≠ some "") ∧
    (Forwarder.recordingStatus r = "active" ↔ ∃ e, r.exerciseId = some e ∧ e ≠ "") ∧
    (Forwarder.recordingStatus r = "passive" ↔ ¬ ∃ e, r.exerciseId = some e ∧ e ≠ "") := by
  have htr : jsTruthyOptStr r.exerciseId = true ↔ ∃ e, r.exerciseId = some e ∧ e ≠ "" := by
    rcases hre : r.exerciseId with _ | e
    · simp [jsTruthyOptStr]
    · simp [jsTruthyOptStr]
  refine ⟨rfl, rfl, ?_, ?_, ?_⟩
  · intro hm
    simpa [Forwarder.onReadingCreated] using hm
  · rw [Forwarder.recordingStatus]
    by_cases ht : jsTruthyOptStr r.exerciseId = true
    · simp [ht, htr.mp ht]
    · rw [if_neg ht]
      constructor
      · intro h; exact absurd h (by decide)
      · intro h; exact absurd (htr.mpr h) ht
  · rw [Forwarder.recordingStatus]
    by_cases ht : jsTruthyOptStr r.exerciseId = true
    · rw [if_pos ht]
      constructor
      · intro h; exact absurd h (by decide)
      · intro h; exact absurd (htr.mp ht) h
    · rw [if_neg ht]
      constructor
      · intro _; intro hex; exact absurd (htr.mpr hex) ht
      · intro _; rfl

/-- Witness for C9 at a concrete measurement and error message. -/
theorem C9_witness :
    (Forwarder.onReadingCreated
        { angle := 45, roll := 1, pitch := 2, yaw := 3, timestamp := 0,
          exerciseId := some "ex", sentToN8N := none, n8nResponse := none,
          n8nStatusCode := none }
        (Forwarder.FetchOutcome.err "network down")).n8nResponse ≠ some "" :=
  (C9_forwarder_writeback
    { angle := 45, roll := 1, pitch := 2, yaw := 3, timestamp := 0,
      exerciseId := some "ex", sentToN8N := none, n8nResponse := none,
      n8nStatusCode := none } "b" "network down" 200).2.2.1 (by decide)

/-- Claim C10: every reading persisted by the ingestion loop carries a
non-empty exerciseId — either a value produced by `startRecording`
(truthy supplied id, fetched id, `"manual-<timestamp>"` or
`"unknown"`) or the literal `"unassigned"` fallback for an unbound
ref — so the downstream presence checks classify every loop-persisted
reading as exercise-associated ("active"), never as passive. -/
theorem C10_loop_reading_exercise_assoc (ref : Option String)
    (h : Recording.ReachableRef ref) :
    Recording.savedExerciseId ref ≠ "" ∧
    jsTruthyStr (Recording.savedExerciseId ref) = true ∧
    (∀ d : Forwarder.MeasDoc, d.exerciseId = some (Recording.savedExerciseId ref) →
      Forwarder.recordingStatus d = "active") ∧
    (ref = none → Recording.savedExerciseId ref = "unassigned") := by
  have hne : Recording.savedExerciseId ref ≠ "" := by
    rcases h with h | ⟨p, f, n, h⟩
    · subst h; decide
    · subst h
      simpa [Recording.savedExerciseId] using startRecordingId_ne_empty p f n
  refine ⟨hne, by simpa [jsTruthyStr] using hne, ?_, ?_⟩
  · intro d hd
    rw [Forwarder.recordingStatus, hd]
    simp [jsTruthyOptStr, hne]
  · intro h0
    subst h0
    rfl

/-- Witness for C10 at a concrete reachable ref value. -/
theorem C10_witness :
    Recording.savedExerciseId
        (some (Recording.startRecordingId (some "knee-1") (Recording.IdFetch.err) 5)) ≠ "" :=
  (C10_loop_reading_exercise_assoc
    (some (Recording.startRecordingId (some "knee-1") (Recording.IdFetch.err) 5))
    (Or.inr ⟨some "knee-1", Recording.IdFetch.err, 5, rfl⟩)).1



lemma splitNl_snd_fixed (s : List Char) :
    splitNl ((splitNl s).2) = ([], (splitNl s).2) := by
  induction s with
  | nil => rfl
  | cons c cs ih =>
    by_cases hc : c = '\n'
    · simp only [splitNl, if_pos hc]
      exact ih
    · rcases h1 : (splitNl cs).1 with _ | ⟨l, ls2⟩
      · simp only [splitNl, if_neg hc, h1]
        simp only [splitNl, if_neg hc, ih]
      · simp only [splitNl, if_neg hc, h1]
        exact ih

lemma splitNl_append (a b : List Char) :
    splitNl (a ++ b) =
      ((splitNl a).1 ++ (splitNl ((splitNl a).2 ++ b)).1,
        (splitNl ((splitNl a).2 ++ b)).2) := by
  induction a with
  | nil => simp [splitNl]
  | cons c cs ih =>
    by_cases hc : c = '\n'
    · simp only [List.cons_append, splitNl, if_pos hc, List.append_eq, ih]
    · rcases h1 : (splitNl cs).1 with _ | ⟨l, ls2⟩
      · simp only [List.cons_append, splitNl, if_neg hc, List.append_eq, ih, h1,
          List.nil_append]
      · simp only [List.cons_append, splitNl, if_neg hc, List.append_eq, ih, h1,
          List.cons_append]

lemma runChunks_eq (chunks : List (List Char)) :
    ∀ buf : List Char, splitNl buf = ([], buf) →
      runChunks buf chunks = splitNl (buf ++ chunks.flatten) := by
  induction chunks with
  | nil =>
    intro buf hbuf
    simp [runChunks, hbuf]
  | cons ch rest ih =>
    intro buf hbuf
    rw [runChunks, feedChunk]
    rw [ih ((splitNl (buf ++ ch)).2) (splitNl_snd_fixed (buf ++ ch))]
    rw [List.flatten_cons, ← List.append_assoc, splitNl_append (buf ++ ch) rest.flatten]

/-- Claim C8: the read-loop's buffer reassembly emits exactly the
newline-delimited records of the concatenated stream, in order,
independently of the chunking; on the spec's two-piece example the
first chunk emits exactly one complete record, the partial second line
is retained and completed by the second chunk, and both emitted
records parse successfully. -/
theorem C8_line_reassembly :
    (∀ chunks : List (List Char), runChunks [] chunks = splitNl chunks.flatten) ∧
    (∀ c1 c2 : List (List Char), c1.flatten = c2.flatten →
      runChunks [] c1 = runChunks [] c2) ∧
    feedChunk [] "Angle: 1 Roll: 2 Pitch: 3 Yaw: 4\nAngle: 5 Rol".toList =
      (["Angle: 1 Roll: 2 Pitch: 3 Yaw: 4".toList], "Angle: 5 Rol".toList) ∧
    runChunks [] ["Angle: 1 Roll: 2 Pitch: 3 Yaw: 4\nAngle: 5 Rol".toList,
        "l: 6 Pitch: 7 Yaw: 8\n".toList] =
      (["Angle: 1 Roll: 2 Pitch: 3 Yaw: 4".toList,
        "Angle: 5 Roll: 6 Pitch: 7 Yaw: 8".toList], []) ∧
    (parseSerialLine "Angle: 1 Roll: 2 Pitch: 3 Yaw: 4".toList).isSome = true ∧
    (parseSerialLine "Angle: 5 Roll: 6 Pitch: 7 Yaw: 8".toList).isSome = true := by
  have hall : ∀ chunks : List (List Char), runChunks [] chunks = splitNl chunks.flatten := by
    intro chunks
    have h := runChunks_eq chunks [] rfl
    simpa using h
  refine ⟨hall, ?_, by decide, by decide, by decide, by decide⟩
  intro c1 c2 hf
  rw [hall c1, hall c2, hf]



lemma ne_of_cls_false (cls : Char → Bool) (c x : Char) (h : cls c = true)
    (hx : cls x = false) : c ≠ x := by
  intro he
  subst he
  rw [h] at hx
  cases hx

lemma takeWhile_append_all (p : Char → Bool) (xs ys : List Char)
    (h : xs.all p = true) (hy : ys.takeWhile p = []) :
    (xs ++ ys).takeWhile p = xs := by
  induction xs with
  | nil => simpa using hy
  | cons c cs ih =>
    simp only [List.all_cons, Bool.and_eq_true] at h
    simp [List.takeWhile_cons, h.1, ih h.2]

lemma dropWhile_append_all (p : Char → Bool) (xs ys : List Char)
    (h : xs.all p = true) :
    (xs ++ ys).dropWhile p = ys.dropWhile p := by
  induction xs with
  | nil => rfl
  | cons c cs ih =>
    simp only [List.all_cons, Bool.and_eq_true] at h
    simp [List.dropWhile_cons, h.1, ih h.2]

lemma dropWhile_eq_self_of_head (p : Char → Bool) (l : List Char)
    (h : ∀ c, l.head? = some c → p c = false) :
    l.dropWhile p = l := by
  cases l with
  | nil => rfl
  | cons c cs => simp [List.dropWhile_cons, h c rfl]

lemma digitChar_spec (d : ℕ) (h : d < 10) :
    (digitChar d).isDigit = true ∧ (digitChar d).toNat - 48 = d ∧
    isNumCh (digitChar d) = true ∧ isNumDashCh (digitChar d) = true ∧
    digitChar d ≠ '-' ∧ digitChar d ≠ '+' ∧ digitChar d ≠ '.' ∧
    isWs (digitChar d) = false := by
  interval_cases d <;> exact ⟨by decide, by decide, by decide, by decide,
    by decide, by decide, by decide, by decide⟩

lemma digitsToNat_map (ds : List ℕ) (h : ∀ d ∈ ds, d < 10) :
    digitsToNat (ds.map digitChar) = digitsVal ds := by
  have haux : ∀ (l : List ℕ), (∀ d ∈ l, d < 10) → ∀ acc : ℕ,
      List.foldl (fun n c => 10 * n + (c.toNat - 48)) acc (l.map digitChar) =
        List.foldl (fun n d => 10 * n + d) acc l := by
    intro l
    induction l with
    | nil => intro _ acc; rfl
    | cons d ds ih =>
      intro hl acc
      simp only [List.map_cons, List.foldl_cons]
      rw [(digitChar_spec d (hl d (by simp))).2.1]
      exact ih (fun x hx => hl x (by simp [hx])) _
  exact haux ds h 0

lemma map_digitChar_all_isDigit (ds : List ℕ) (h : ∀ d ∈ ds, d < 10) :
    (ds.map digitChar).all Char.isDigit = true := by
  rw [List.all_eq_true]
  intro c hc
  rw [List.mem_map] at hc
  obtain ⟨d, hd, rfl⟩ := hc
  exact (digitChar_spec d (h d hd)).1

lemma dotRender_takeWhile_empty (fp : List ℕ) :
    (dotRender fp).takeWhile Char.isDigit = [] := by
  by_cases h : fp = []
  · simp [dotRender, h]
  · simp [dotRender, h, List.takeWhile_cons]

lemma jsParseTail_exact (ip fp : List ℕ)
    (hip : ∀ d ∈ ip, d < 10) (hfp : ∀ d ∈ fp, d < 10)
    (hne : ip ≠ [] ∨ fp ≠ []) :
    jsParseTail (ip.map digitChar ++ dotRender fp) =
      some ((digitsVal ip : ℚ) + (digitsVal fp : ℚ) / (10 : ℚ) ^ fp.length) := by
  have htw : (ip.map digitChar ++ dotRender fp).takeWhile Char.isDigit = ip.map digitChar :=
    takeWhile_append_all _ _ _ (map_digitChar_all_isDigit ip hip) (dotRender_takeWhile_empty fp)
  have hdrop : (ip.map digitChar ++ dotRender fp).drop (ip.map digitChar).length =
      dotRender fp := List.drop_left _ _
  rw [jsParseTail]
  simp only [htw]
  rw [show (ip.map digitChar).length = ip.length from List.length_map _ _]
  rw [show List.drop ip.length (ip.map digitChar ++ dotRender fp) = dotRender fp from by
    rw [List.length_map] at hdrop; exact hdrop]
  by_cases h : fp = []
  · rcases hne with hi | hf
    · have hipne : (ip.map digitChar).isEmpty = false := by
        cases ip with
        | nil => exact absurd rfl hi
        | cons a l => rfl
      simp only [dotRender, if_pos h]
      rw [if_neg (by simp [hipne])]
      rw [digitsToNat_map ip hip]
      simp [h, digitsToNat, digitsVal]
    · exact absurd h hf
  · simp only [dotRender, if_neg h]
    have hfpd : (fp.map digitChar).takeWhile Char.isDigit = fp.map digitChar := by
      have := takeWhile_append_all Char.isDigit (fp.map digitChar) []
        (map_digitChar_all_isDigit fp hfp) rfl
      simpa using this
    have hfpe : (fp.map digitChar).isEmpty = false := by
      cases fp with
      | nil => exact absurd rfl h
      | cons a l => rfl
    rw [if_neg (by simp [hfpe, hfpd])]
    rw [hfpd, digitsToNat_map ip hip, digitsToNat_map fp hfp, List.length_map]

lemma jsParseFloat_renderNum (neg : Bool) (ip fp : List ℕ)
    (hip : ∀ d ∈ ip, d < 10) (hfp : ∀ d ∈ fp, d < 10)
    (hne : ip ≠ [] ∨ fp ≠ []) :
    jsParseFloat (renderNum neg ip fp) = some (numValue neg ip fp) := by
  have hexact := jsParseTail_exact ip fp hip hfp hne
  set L := ip.map digitChar ++ dotRender fp with hL
  cases neg with
  | true =>
    have ht : renderNum true ip fp = '-' :: L := by
      simp [renderNum, hL]
    rw [ht, jsParseFloat]
    simp only [List.dropWhile_cons, show isWs '-' = false from by decide,
      Bool.false_eq_true, if_false, List.head?_cons, List.tail_cons]
    simp
    rw [hexact]
    simp [numValue]
  | false =>
    rcases hi : ip with _ | ⟨d, ds⟩
    · have hf : fp ≠ [] := by
        rcases hne with h | h
        · exact absurd hi h
        · exact h
      subst hi
      have ht : renderNum false [] fp = '.' :: fp.map digitChar := by
        simp [renderNum, dotRender, hf]
      rw [ht, jsParseFloat]
      simp only [List.dropWhile_cons, show isWs '.' = false from by decide,
        Bool.false_eq_true, if_false, List.head?_cons]
      simp
      rw [show ('.' : Char) :: fp.map digitChar = L from by
        rw [hL]; simp [dotRender, hf]]
      rw [hexact]
      simp [numValue]
    · subst hi
      have hd10 : d < 10 := hip d (by simp)
      have hspec := digitChar_spec d hd10
      have ht : renderNum false (d :: ds) fp =
          digitChar d :: (ds.map digitChar ++ dotRender fp) := by
        simp [renderNum, hL]
      rw [ht, jsParseFloat]
      have hne1 : (decide (some (digitChar d) = some '-') : Bool) = false :=
        decide_eq_false (fun h => hspec.2.2.2.2.1 (Option.some_injective _ h))
      have hne2 : (decide (some (digitChar d) = some '-' ∨
          some (digitChar d) = some '+') : Bool) = false :=
        decide_eq_false (by
          rintro (h | h)
          · exact hspec.2.2.2.2.1 (Option.some_injective _ h)
          · exact hspec.2.2.2.2.2.1 (Option.some_injective _ h))
      simp only [List.dropWhile_cons, hspec.2.2.2.2.2.2.2, Bool.false_eq_true, if_false,
        List.head?_cons, hne1, hne2]
      simp
      rw [show digitChar d :: (ds.map digitChar ++ dotRender fp) = L from by
        rw [hL]; simp]
      rw [hexact]
      simp [numValue]

lemma takeWhile_nil_of_head (cls : Char → Bool) (rest : List Char)
    (h : ∀ c, rest.head? = some c → cls c = false) :
    rest.takeWhile cls = [] := by
  cases rest with
  | nil => rfl
  | cons c cs => simp [List.takeWhile_cons, h c rfl]

lemma takeWhile_nil_ws_prefix (cls : Char → Bool) (w rest : List Char)
    (hw : w.all isWs = true) (hdisj : ∀ c, cls c = true → isWs c = false)
    (hrest : rest.takeWhile cls = []) :
    (w ++ rest).takeWhile cls = [] := by
  induction w with
  | nil => simpa using hrest
  | cons c cs ih =>
    simp only [List.all_cons, Bool.and_eq_true] at hw
    have hc : cls c = false := by
      by_contra hcc
      rw [Bool.not_eq_false] at hcc
      rw [hdisj c hcc] at hw
      cases hw.1
    simp [List.takeWhile_cons, hc]

lemma tryMatchAt_exact (label : List Char) (cls : Char → Bool) (w tok v : List Char)
    (hw : w.all isWs = true) (htok : tok ≠ []) (hcls : tok.all cls = true)
    (hdisj : ∀ c, cls c = true → isWs c = false)
    (hv : v.takeWhile cls = []) :
    tryMatchAt label cls (label ++ (w ++ (tok ++ v))) = some tok := by
  have hpre : label.isPrefixOf (label ++ (w ++ (tok ++ v))) = true := by
    rw [List.isPrefixOf_iff_prefix]
    exact List.prefix_append _ _
  rw [tryMatchAt, if_pos hpre, List.drop_left]
  rw [dropWhile_append_all isWs w (tok ++ v) hw]
  rw [dropWhile_eq_self_of_head isWs (tok ++ v) (by
    intro c hc
    cases tok with
    | nil => exact absurd rfl htok
    | cons t ts =>
      rw [List.cons_append, List.head?_cons] at hc
      rw [← Option.some_injective _ hc]
      simp only [List.all_cons, Bool.and_eq_true] at hcls
      exact hdisj t hcls.1)]
  rw [takeWhile_append_all cls tok v hcls hv]
  cases tok with
  | nil => exact absurd rfl htok
  | cons t ts => rfl

lemma scanFor_of_tryMatchAt (label : List Char) (cls : Char → Bool) (s : List Char)
    (tok : List Char) (hs : s ≠ []) (h : tryMatchAt label cls s = some tok) :
    scanFor label cls s = some tok := by
  cases s with
  | nil => exact absurd rfl hs
  | cons c cs => rw [scanFor, h]

lemma scanFor_skip (h : Char) (lt : List Char) (cls : Char → Bool) (p s : List Char)
    (hp : ∀ c ∈ p, c ≠ h) :
    scanFor (h :: lt) cls (p ++ s) = scanFor (h :: lt) cls s := by
  induction p with
  | nil => rfl
  | cons c cs ih =>
    rw [List.cons_append, scanFor]
    have hmiss : tryMatchAt (h :: lt) cls (c :: (cs ++ s)) = none := by
      rw [tryMatchAt, if_neg ?_]
      simp only [List.isPrefixOf]
      have : (h == c) = false := by
        have := hp c (by simp)
        simp [Ne.symm this]
      simp [this]
    rw [hmiss]
    exact ih (fun x hx => hp x (by simp [hx]))

lemma forall_ne_append (l1 l2 : List Char) (x : Char)
    (h1 : ∀ c ∈ l1, c ≠ x) (h2 : ∀ c ∈ l2, c ≠ x) : ∀ c ∈ l1 ++ l2, c ≠ x := by
  intro c hc
  rcases List.mem_append.mp hc with h | h
  · exact h1 c h
  · exact h2 c h

lemma forall_ne_of_all (cls : Char → Bool) (l : List Char) (x : Char)
    (hl : l.all cls = true) (hx : cls x = false) : ∀ c ∈ l, c ≠ x := by
  intro c hc
  have := List.all_eq_true.mp hl c hc
  exact ne_of_cls_false cls c x this hx

lemma renderNum_all_numDash (neg : Bool) (ip fp : List ℕ)
    (hip : ∀ d ∈ ip, d < 10) (hfp : ∀ d ∈ fp, d < 10) :
    (renderNum neg ip fp).all isNumDashCh = true := by
  rw [List.all_eq_true]
  intro c hc
  rw [renderNum] at hc
  rcases List.mem_append.mp hc with h | h
  · rcases List.mem_append.mp h with h | h
    · cases neg with
      | true => simp at h; subst h; decide
      | false => simp at h
    · rw [List.mem_map] at h
      obtain ⟨d, hd, rfl⟩ := h
      exact (digitChar_spec d (hip d hd)).2.2.2.1
  · rw [dotRender] at h
    by_cases hf : fp = []
    · rw [if_pos hf] at h; simp at h
    · rw [if_neg hf] at h
      rcases List.mem_cons.mp h with h | h
      · subst h; decide
      · rw [List.mem_map] at h
        obtain ⟨d, hd, rfl⟩ := h
        exact (digitChar_spec d (hfp d hd)).2.2.2.1

lemma renderNum_false_all_num (ip fp : List ℕ)
    (hip : ∀ d ∈ ip, d < 10) (hfp : ∀ d ∈ fp, d < 10) :
    (renderNum false ip fp).all isNumCh = true := by
  rw [List.all_eq_true]
  intro c hc
  rw [renderNum] at hc
  rcases List.mem_append.mp hc with h | h
  · rcases List.mem_append.mp h with h | h
    · simp at h
    · rw [List.mem_map] at h
      obtain ⟨d, hd, rfl⟩ := h
      exact (digitChar_spec d (hip d hd)).2.2.1
  · rw [dotRender] at h
    by_cases hf : fp = []
    · rw [if_pos hf] at h; simp at h
    · rw [if_neg hf] at h
      rcases List.mem_cons.mp h with h | h
      · subst h; decide
      · rw [List.mem_map] at h
        obtain ⟨d, hd, rfl⟩ := h
        exact (digitChar_spec d (hfp d hd)).2.2.1

lemma renderNum_ne_nil (neg : Bool) (ip fp : List ℕ) (hne : ip ≠ [] ∨ fp ≠ []) :
    renderNum neg ip fp ≠ [] := by
  rw [renderNum]
  intro h
  rcases List.append_eq_nil.mp h with ⟨h1, h2⟩
  rcases List.append_eq_nil.mp h1 with ⟨-, h3⟩
  rcases hne with hi | hf
  · cases ip with
    | nil => exact hi rfl
    | cons a l => simp at h3
  · rw [dotRender] at h2
    rw [if_neg hf] at h2
    simp at h2

lemma numCh_not_ws : ∀ c, isNumCh c = true → isWs c = false := by
  intro c h
  by_contra hw
  rw [Bool.not_eq_false] at hw
  simp only [isWs, decide_eq_true_eq] at hw
  rcases hw with rfl | rfl | rfl | rfl | rfl | rfl <;> exact absurd h (by decide)

lemma numDashCh_not_ws : ∀ c, isNumDashCh c = true → isWs c = false := by
  intro c h
  by_contra hw
  rw [Bool.not_eq_false] at hw
  simp only [isWs, decide_eq_true_eq] at hw
  rcases hw with rfl | rfl | rfl | rfl | rfl | rfl <;> exact absurd h (by decide)

lemma takeWhile_nil_cons (cls : Char → Bool) (c : Char) (rest : List Char)
    (hc : cls c = false) : (c :: rest).takeWhile cls = [] := by
  simp [List.takeWhile_cons, hc]

lemma parseSerialLine_mkLine
    (w0 w1 w2 w3 w4 w5 w6 w7 w8 : List Char)
    (ipa fpa : List ℕ) (negr : Bool) (ipr fpr : List ℕ)
    (negp : Bool) (ipp fpp : List ℕ) (negy : Bool) (ipy fpy : List ℕ)
    (hw0 : w0.all isWs = true) (hw1 : w1.all isWs = true) (hw2 : w2.all isWs = true)
    (hw3 : w3.all isWs = true) (hw4 : w4.all isWs = true) (hw5 : w5.all isWs = true)
    (hw6 : w6.all isWs = true) (hw7 : w7.all isWs = true) (hw8 : w8.all isWs = true)
    (hipa : ∀ d ∈ ipa, d < 10) (hfpa : ∀ d ∈ fpa, d < 10) (hnea : ipa ≠ [] ∨ fpa ≠ [])
    (hipr : ∀ d ∈ ipr, d < 10) (hfpr : ∀ d ∈ fpr, d < 10) (hner : ipr ≠ [] ∨ fpr ≠ [])
    (hipp : ∀ d ∈ ipp, d < 10) (hfpp : ∀ d ∈ fpp, d < 10) (hnep : ipp ≠ [] ∨ fpp ≠ [])
    (hipy : ∀ d ∈ ipy, d < 10) (hfpy : ∀ d ∈ fpy, d < 10) (hney : ipy ≠ [] ∨ fpy ≠ []) :
    parseSerialLine (mkLine w0 w1 w2 w3 w4 w5 w6 w7 w8
        (renderNum false ipa fpa) (renderNum negr ipr fpr)
        (renderNum negp ipp fpp) (renderNum negy ipy fpy)) =
      some { angle := some (numValue false ipa fpa), roll := some (numValue negr ipr fpr),
             pitch := some (numValue negp ipp fpp), yaw := some (numValue negy ipy fpy),
             raw := mkLine w0 w1 w2 w3 w4 w5 w6 w7 w8
               (renderNum false ipa fpa) (renderNum negr ipr fpr)
               (renderNum negp ipp fpp) (renderNum negy ipy fpy) } := by
  set aTok := renderNum false ipa fpa with haT
  set rTok := renderNum negr ipr fpr with hrT
  set pTok := renderNum negp ipp fpp with hpT
  set yTok := renderNum negy ipy fpy with hyT
  have haAll : aTok.all isNumCh = true := renderNum_false_all_num ipa fpa hipa hfpa
  have hrAll : rTok.all isNumDashCh = true := renderNum_all_numDash negr ipr fpr hipr hfpr
  have hpAll : pTok.all isNumDashCh = true := renderNum_all_numDash negp ipp fpp hipp hfpp
  have hyAll : yTok.all isNumDashCh = true := renderNum_all_numDash negy ipy fpy hipy hfpy
  have haNe : aTok ≠ [] := renderNum_ne_nil false ipa fpa hnea
  have hrNe : rTok ≠ [] := renderNum_ne_nil negr ipr fpr hner
  have hpNe : pTok ≠ [] := renderNum_ne_nil negp ipp fpp hnep
  have hyNe : yTok ≠ [] := renderNum_ne_nil negy ipy fpy hney
  have hcvtA : ("Angle:".toList : List Char) = 'A' :: "ngle:".toList := by decide
  have hcvtR : ("Roll:".toList : List Char) = 'R' :: "oll:".toList := by decide
  have hcvtP : ("Pitch:".toList : List Char) = 'P' :: "itch:".toList := by decide
  have hcvtY : ("Yaw:".toList : List Char) = 'Y' :: "aw:".toList := by decide
  -- the Angle scan
  have hA : scanFor "Angle:".toList isNumCh
      (mkLine w0 w1 w2 w3 w4 w5 w6 w7 w8 aTok rTok pTok yTok) = some aTok := by
    have hshape : mkLine w0 w1 w2 w3 w4 w5 w6 w7 w8 aTok rTok pTok yTok =
        w0 ++ ("Angle:".toList ++ (w1 ++ (aTok ++
          (w2 ++ ("Roll:".toList ++ (w3 ++ (rTok ++ (w4 ++ ("Pitch:".toList ++
            (w5 ++ (pTok ++ (w6 ++ ("Yaw:".toList ++ (w7 ++ (yTok ++ w8))))))))))))))) := by
      simp [mkLine, List.append_assoc]
    rw [hshape, hcvtA,
      scanFor_skip 'A' "ngle:".toList isNumCh w0 _
        (forall_ne_of_all isWs w0 'A' hw0 (by decide))]
    refine scanFor_of_tryMatchAt _ _ _ _ (by simp) ?_
    rw [← hcvtA]
    refine tryMatchAt_exact "Angle:".toList isNumCh w1 aTok _ hw1 haNe haAll numCh_not_ws ?_
    refine takeWhile_nil_ws_prefix isNumCh w2 _ hw2 numCh_not_ws ?_
    rw [hcvtR]
    exact takeWhile_nil_cons isNumCh 'R' _ (by decide)
  -- the Roll scan
  have hR : scanFor "Roll:".toList isNumDashCh
      (mkLine w0 w1 w2 w3 w4 w5 w6 w7 w8 aTok rTok pTok yTok) = some rTok := by
    have hshape : mkLine w0 w1 w2 w3 w4 w5 w6 w7 w8 aTok rTok pTok yTok =
        (w0 ++ ("Angle:".toList ++ (w1 ++ (aTok ++ w2)))) ++
          ("Roll:".toList ++ (w3 ++ (rTok ++
            (w4 ++ ("Pitch:".toList ++ (w5 ++ (pTok ++
              (w6 ++ ("Yaw:".toList ++ (w7 ++ (yTok ++ w8))))))))))) := by
      simp [mkLine, List.append_assoc]
    have hpre : ∀ c ∈ w0 ++ ("Angle:".toList ++ (w1 ++ (aTok ++ w2))), c ≠ 'R' := by
      refine forall_ne_append _ _ _ (forall_ne_of_all isWs w0 'R' hw0 (by decide)) ?_
      refine forall_ne_append _ _ _ (by decide) ?_
      refine forall_ne_append _ _ _ (forall_ne_of_all isWs w1 'R' hw1 (by decide)) ?_
      refine forall_ne_append _ _ _ (forall_ne_of_all isNumCh aTok 'R' haAll (by decide)) ?_
      exact forall_ne_of_all isWs w2 'R' hw2 (by decide)
    rw [hshape, hcvtR, scanFor_skip 'R' "oll:".toList isNumDashCh _ _ hpre]
    refine scanFor_of_tryMatchAt _ _ _ _ (by simp) ?_
    rw [← hcvtR]
    refine tryMatchAt_exact "Roll:".toList isNumDashCh w3 rTok _ hw3 hrNe hrAll
      numDashCh_not_ws ?_
    refine takeWhile_nil_ws_prefix isNumDashCh w4 _ hw4 numDashCh_not_ws ?_
    rw [hcvtP]
    exact takeWhile_nil_cons isNumDashCh 'P' _ (by decide)
  -- the Pitch scan
  have hP : scanFor "Pitch:".toList isNumDashCh
      (mkLine w0 w1 w2 w3 w4 w5 w6 w7 w8 aTok rTok pTok yTok) = some pTok := by
    have hshape : mkLine w0 w1 w2 w3 w4 w5 w6 w7 w8 aTok rTok pTok yTok =
        (w0 ++ ("Angle:".toList ++ (w1 ++ (aTok ++
          (w2 ++ ("Roll:".toList ++ (w3 ++ (rTok ++ w4)))))))) ++
          ("Pitch:".toList ++ (w5 ++ (pTok ++
            (w6 ++ ("Yaw:".toList ++ (w7 ++ (yTok ++ w8))))))) := by
      simp [mkLine, List.append_assoc]
    have hpre : ∀ c ∈ w0 ++ ("Angle:".toList ++ (w1 ++ (aTok ++
        (w2 ++ ("Roll:".toList ++ (w3 ++ (rTok ++ w4))))))), c ≠ 'P' := by
      refine forall_ne_append _ _ _ (forall_ne_of_all isWs w0 'P' hw0 (by decide)) ?_
      refine forall_ne_append _ _ _ (by decide) ?_
      refine forall_ne_append _ _ _ (forall_ne_of_all isWs w1 'P' hw1 (by decide)) ?_
      refine forall_ne_append _ _ _ (forall_ne_of_all isNumCh aTok 'P' haAll (by decide)) ?_
      refine forall_ne_append _ _ _ (forall_ne_of_all isWs w2 'P' hw2 (by decide)) ?_
      refine forall_ne_append _ _ _ (by decide) ?_
      refine forall_ne_append _ _ _ (forall_ne_of_all isWs w3 'P' hw3 (by decide)) ?_
      refine forall_ne_append _ _ _
        (forall_ne_of_all isNumDashCh rTok 'P' hrAll (by decide)) ?_
      exact forall_ne_of_all isWs w4 'P' hw4 (by decide)
    rw [hshape, hcvtP, scanFor_skip 'P' "itch:".toList isNumDashCh _ _ hpre]
    refine scanFor_of_tryMatchAt _ _ _ _ (by simp) ?_
    rw [← hcvtP]
    refine tryMatchAt_exact "Pitch:".toList isNumDashCh w5 pTok _ hw5 hpNe hpAll
      numDashCh_not_ws ?_
    refine takeWhile_nil_ws_prefix isNumDashCh w6 _ hw6 numDashCh_not_ws ?_
    rw [hcvtY]
    exact takeWhile_nil_cons isNumDashCh 'Y' _ (by decide)
  -- the Yaw scan
  have hY : scanFor "Yaw:".toList isNumDashCh
      (mkLine w0 w1 w2 w3 w4 w5 w6 w7 w8 aTok rTok pTok yTok) = some yTok := by
    have hshape : mkLine w0 w1 w2 w3 w4 w5 w6 w7 w8 aTok rTok pTok yTok =
        (w0 ++ ("Angle:".toList ++ (w1 ++ (aTok ++
          (w2 ++ ("Roll:".toList ++ (w3 ++ (rTok ++
            (w4 ++ ("Pitch:".toList ++ (w5 ++ (pTok ++ w6)))))))))))) ++
          ("Yaw:".toList ++ (w7 ++ (yTok ++ w8))) := by
      simp [mkLine, List.append_assoc]
    have hpre : ∀ c ∈ w0 ++ ("Angle:".toList ++ (w1 ++ (aTok ++
        (w2 ++ ("Roll:".toList ++ (w3 ++ (rTok ++
          (w4 ++ ("Pitch:".toList ++ (w5 ++ (pTok ++ w6))))))))))), c ≠ 'Y' := by
      refine forall_ne_append _ _ _ (forall_ne_of_all isWs w0 'Y' hw0 (by decide)) ?_
      refine forall_ne_append _ _ _ (by decide) ?_
      refine forall_ne_append _ _ _ (forall_ne_of_all isWs w1 'Y' hw1 (by decide)) ?_
      refine forall_ne_append _ _ _ (forall_ne_of_all isNumCh aTok 'Y' haAll (by decide)) ?_
      refine forall_ne_append _ _ _ (forall_ne_of_all isWs w2 'Y' hw2 (by decide)) ?_
      refine forall_ne_append _ _ _ (by decide) ?_
      refine forall_ne_append _ _ _ (forall_ne_of_all isWs w3 'Y' hw3 (by decide)) ?_
      refine forall_ne_append _ _ _
        (forall_ne_of_all isNumDashCh rTok 'Y' hrAll (by decide)) ?_
      refine forall_ne_append _ _ _ (forall_ne_of_all isWs w4 'Y' hw4 (by decide)) ?_
      refine forall_ne_append _ _ _ (by decide) ?_
      refine forall_ne_append _ _ _ (forall_ne_of_all isWs w5 'Y' hw5 (by decide)) ?_
      refine forall_ne_append _ _ _
        (forall_ne_of_all isNumDashCh pTok 'Y' hpAll (by decide)) ?_
      exact forall_ne_of_all isWs w6 'Y' hw6 (by decide)
    rw [hshape, hcvtY, scanFor_skip 'Y' "aw:".toList isNumDashCh _ _ hpre]
    refine scanFor_of_tryMatchAt _ _ _ _ (by simp) ?_
    rw [← hcvtY]
    refine tryMatchAt_exact "Yaw:".toList isNumDashCh w7 yTok _ hw7 hyNe hyAll
      numDashCh_not_ws ?_
    have h8 := takeWhile_nil_ws_prefix isNumDashCh w8 [] hw8 numDashCh_not_ws rfl
    simpa using h8
  rw [parseSerialLine, hA, hR, hP, hY]
  simp only [haT, hrT, hpT, hyT]
  rw [jsParseFloat_renderNum false ipa fpa hipa hfpa hnea,
    jsParseFloat_renderNum negr ipr fpr hipr hfpr hner,
    jsParseFloat_renderNum negp ipp fpp hipp hfpp hnep,
    jsParseFloat_renderNum negy ipy fpy hipy hfpy hney]

lemma all_takeWhile_cls (p : Char → Bool) (l : List Char) :
    (l.takeWhile p).all p = true := by
  induction l with
  | nil => rfl
  | cons c cs ih =>
    by_cases hc : p c
    · simp [List.takeWhile_cons, hc, ih]
    · simp [List.takeWhile_cons, hc]

lemma scanFor_some_contains (label : List Char) (cls : Char → Bool) :
    ∀ (s tok : List Char), scanFor label cls s = some tok →
      ContainsLabeledRun label cls s := by
  intro s
  induction s with
  | nil => intro tok h; exact absurd h (by simp [scanFor])
  | cons c cs ih =>
    intro tok h
    rw [scanFor] at h
    rcases htm : tryMatchAt label cls (c :: cs) with _ | t
    · rw [htm] at h
      obtain ⟨u, w, tk, v, hdec, hw, htk, hcls⟩ := ih tok h
      exact ⟨c :: u, w, tk, v, by simp [hdec], hw, htk, hcls⟩
    · rw [htm] at h
      rw [tryMatchAt] at htm
      by_cases hpre : label.isPrefixOf (c :: cs) = true
      · rw [if_pos hpre] at htm
        by_cases he :
            ((((c :: cs).drop label.length).dropWhile isWs).takeWhile cls).isEmpty = true
        · rw [if_pos he] at htm; cases htm
        · rw [if_neg he] at htm
          obtain ⟨t2, ht2⟩ := List.isPrefixOf_iff_prefix.mp hpre
          have hrest : (c :: cs).drop label.length = t2 := by
            rw [← ht2, List.drop_left]
          rw [hrest] at he
          refine ⟨[], t2.takeWhile isWs, (t2.dropWhile isWs).takeWhile cls,
            (t2.dropWhile isWs).dropWhile cls, ?_, ?_, ?_, ?_⟩
          · rw [List.nil_append, ← ht2, List.append_assoc, List.append_assoc]
            congr 1
            rw [List.takeWhile_append_dropWhile cls (t2.dropWhile isWs),
              List.takeWhile_append_dropWhile isWs t2]
          · exact all_takeWhile_cls isWs t2
          · intro hnil
            rw [hnil] at he
            exact he rfl
          · exact all_takeWhile_cls cls (t2.dropWhile isWs)
      · rw [if_neg hpre] at htm
        cases htm

lemma tryMatchAt_ne_none (label : List Char) (cls : Char → Bool) (w tok v : List Char)
    (hw : w.all isWs = true) (htok : tok ≠ []) (hcls : tok.all cls = true)
    (hdisj : ∀ c, cls c = true → isWs c = false) :
    tryMatchAt label cls (label ++ (w ++ (tok ++ v))) ≠ none := by
  have hpre : label.isPrefixOf (label ++ (w ++ (tok ++ v))) = true := by
    rw [List.isPrefixOf_iff_prefix]
    exact List.prefix_append _ _
  rw [tryMatchAt, if_pos hpre, List.drop_left]
  rw [dropWhile_append_all isWs w (tok ++ v) hw]
  rw [dropWhile_eq_self_of_head isWs (tok ++ v) (by
    intro c hc
    cases tok with
    | nil => exact absurd rfl htok
    | cons t ts =>
      rw [List.cons_append, List.head?_cons] at hc
      rw [← Option.some_injective _ hc]
      simp only [List.all_cons, Bool.and_eq_true] at hcls
      exact hdisj t hcls.1)]
  cases tok with
  | nil => exact absurd rfl htok
  | cons t ts =>
    simp only [List.all_cons, Bool.and_eq_true] at hcls
    rw [List.cons_append, List.takeWhile_cons, hcls.1]
    simp

lemma scanFor_ne_none_of_suffix (label : List Char) (cls : Char → Bool) (p s2 : List Char)
    (h : tryMatchAt label cls s2 ≠ none) (hs2 : s2 ≠ []) :
    scanFor label cls (p ++ s2) ≠ none := by
  induction p with
  | nil =>
    cases s2 with
    | nil => exact absurd rfl hs2
    | cons c cs =>
      rw [List.nil_append, scanFor]
      rcases htm : tryMatchAt label cls (c :: cs) with _ | t
      · exact absurd htm h
      · simp
  | cons c p2 ih =>
    rw [List.cons_append, scanFor]
    rcases htm : tryMatchAt label cls (c :: (p2 ++ s2)) with _ | t
    · exact ih
    · simp

lemma contains_scan_ne_none (label : List Char) (cls : Char → Bool) (s : List Char)
    (hl : label ≠ []) (hdisj : ∀ c, cls c = true → isWs c = false)
    (hc : ContainsLabeledRun label cls s) :
    scanFor label cls s ≠ none := by
  obtain ⟨u, w, tok, v, hdec, hw, htok, hcls⟩ := hc
  rw [hdec]
  have hassoc : u ++ label ++ w ++ tok ++ v = u ++ (label ++ (w ++ (tok ++ v))) := by
    simp [List.append_assoc]
  rw [hassoc]
  refine scanFor_ne_none_of_suffix label cls u _
    (tryMatchAt_ne_none label cls w tok v hw htok hcls hdisj) ?_
  intro hnil
  rcases List.append_eq_nil.mp hnil with ⟨h1, -⟩
  exact hl h1

lemma not_contains_of_scan_none (label : List Char) (cls : Char → Bool) (s : List Char)
    (hl : label ≠ []) (hdisj : ∀ c, cls c = true → isWs c = false)
    (h : scanFor label cls s = none) :
    ¬ ContainsLabeledRun label cls s :=
  fun hc => contains_scan_ne_none label cls s hl hdisj hc h

lemma parseSerialLine_none_of_missing (line : List Char)
    (h : ¬ ContainsLabeledRun "Angle:".toList isNumCh line ∨
      ¬ ContainsLabeledRun "Roll:".toList isNumDashCh line ∨
      ¬ ContainsLabeledRun "Pitch:".toList isNumDashCh line ∨
      ¬ ContainsLabeledRun "Yaw:".toList isNumDashCh line) :
    parseSerialLine line = none := by
  have hofA : ∀ tok, scanFor "Angle:".toList isNumCh line = some tok →
      ContainsLabeledRun "Angle:".toList isNumCh line :=
    fun tok ht => scanFor_some_contains _ _ line tok ht
  have hofR : ∀ tok, scanFor "Roll:".toList isNumDashCh line = some tok →
      ContainsLabeledRun "Roll:".toList isNumDashCh line :=
    fun tok ht => scanFor_some_contains _ _ line tok ht
  have hofP : ∀ tok, scanFor "Pitch:".toList isNumDashCh line = some tok →
      ContainsLabeledRun "Pitch:".toList isNumDashCh line :=
    fun tok ht => scanFor_some_contains _ _ line tok ht
  have hofY : ∀ tok, scanFor "Yaw:".toList isNumDashCh line = some tok →
      ContainsLabeledRun "Yaw:".toList isNumDashCh line :=
    fun tok ht => scanFor_some_contains _ _ line tok ht
  rcases hA : scanFor "Angle:".toList isNumCh line with _ | a
  · rw [parseSerialLine, hA]
  rcases hR : scanFor "Roll:".toList isNumDashCh line with _ | r
  · rw [parseSerialLine, hA, hR]
  rcases hP : scanFor "Pitch:".toList isNumDashCh line with _ | p
  · rw [parseSerialLine, hA, hR, hP]
  rcases hY : scanFor "Yaw:".toList isNumDashCh line with _ | y
  · rw [parseSerialLine, hA, hR, hP, hY]
  rcases h with h | h | h | h
  · exact absurd (hofA a hA) h
  · exact absurd (hofR r hR) h
  · exact absurd (hofP p hP) h
  · exact absurd (hofY y hY) h

/-- Counterexample to claim C3: the line below carries all four labels,
each followed by a signed decimal number, yet the parser returns null —
the `Angle:` pattern `[\d.]+` admits no minus sign, so `Angle: -5`
fails to match. -/
theorem C3_counterexample :
    (ContainsLabeledDecimal "Angle:".toList "Angle: -5 Roll: 1.5 Pitch: 2 Yaw: 3".toList ∧
     ContainsLabeledDecimal "Roll:".toList "Angle: -5 Roll: 1.5 Pitch: 2 Yaw: 3".toList ∧
     ContainsLabeledDecimal "Pitch:".toList "Angle: -5 Roll: 1.5 Pitch: 2 Yaw: 3".toList ∧
     ContainsLabeledDecimal "Yaw:".toList "Angle: -5 Roll: 1.5 Pitch: 2 Yaw: 3".toList) ∧
    parseSerialLine "Angle: -5 Roll: 1.5 Pitch: 2 Yaw: 3".toList = none := by
  refine ⟨⟨?_, ?_, ?_, ?_⟩, by decide⟩
  · exact ⟨[], [' '], "-5".toList, " Roll: 1.5 Pitch: 2 Yaw: 3".toList, by decide, by decide,
      ⟨true, ['5'], [], by decide, by decide, by decide, Or.inl (by decide)⟩,
      Or.inr (by decide)⟩
  · exact ⟨"Angle: -5 ".toList, [' '], "1.5".toList, " Pitch: 2 Yaw: 3".toList, by decide,
      by decide,
      ⟨false, ['1'], ['5'], by decide, by decide, by decide, Or.inl (by decide)⟩,
      Or.inr (by decide)⟩
  · exact ⟨"Angle: -5 Roll: 1.5 ".toList, [' '], ['2'], " Yaw: 3".toList, by decide,
      by decide,
      ⟨false, ['2'], [], by decide, by decide, by decide, Or.inl (by decide)⟩,
      Or.inr (by decide)⟩
  · exact ⟨"Angle: -5 Roll: 1.5 Pitch: 2 ".toList, [' '], ['3'], [], by decide, by decide,
      ⟨false, ['3'], [], by decide, by decide, by decide, Or.inl (by decide)⟩,
      Or.inl rfl⟩

/-- Amended claim C3: (1) for every line made of the four labelled
fields in order — `Angle:` followed by an unsigned decimal numeral,
`Roll:`/`Pitch:`/`Yaw:` by signed decimal numerals — separated by
arbitrary whitespace, the parser returns exactly the four denoted
numeric values; (2) for every line in which some label is nowhere
followed (after optional whitespace) by a non-empty run of its numeric
character class, the parser returns null. -/
theorem C3_parser_amended :
    (∀ (w0 w1 w2 w3 w4 w5 w6 w7 w8 : List Char) (ipa fpa : List ℕ)
        (negr : Bool) (ipr fpr : List ℕ) (negp : Bool) (ipp fpp : List ℕ)
        (negy : Bool) (ipy fpy : List ℕ),
      w0.all isWs = true → w1.all isWs = true → w2.all isWs = true →
      w3.all isWs = true → w4.all isWs = true → w5.all isWs = true →
      w6.all isWs = true → w7.all isWs = true → w8.all isWs = true →
      (∀ d ∈ ipa, d < 10) → (∀ d ∈ fpa, d < 10) → (ipa ≠ [] ∨ fpa ≠ []) →
      (∀ d ∈ ipr, d < 10) → (∀ d ∈ fpr, d < 10) → (ipr ≠ [] ∨ fpr ≠ []) →
      (∀ d ∈ ipp, d < 10) → (∀ d ∈ fpp, d < 10) → (ipp ≠ [] ∨ fpp ≠ []) →
      (∀ d ∈ ipy, d < 10) → (∀ d ∈ fpy, d < 10) → (ipy ≠ [] ∨ fpy ≠ []) →
      parseSerialLine (mkLine w0 w1 w2 w3 w4 w5 w6 w7 w8
          (renderNum false ipa fpa) (renderNum negr ipr fpr)
          (renderNum negp ipp fpp) (renderNum negy ipy fpy)) =
        some { angle := some (numValue false ipa fpa),
               roll := some (numValue negr ipr fpr),
               pitch := some (numValue negp ipp fpp),
               yaw := some (numValue negy ipy fpy),
               raw := mkLine w0 w1 w2 w3 w4 w5 w6 w7 w8
                 (renderNum false ipa fpa) (renderNum negr ipr fpr)
                 (renderNum negp ipp fpp) (renderNum negy ipy fpy) }) ∧
    (∀ line : List Char,
      (¬ ContainsLabeledRun "Angle:".toList isNumCh line ∨
       ¬ ContainsLabeledRun "Roll:".toList isNumDashCh line ∨
       ¬ ContainsLabeledRun "Pitch:".toList isNumDashCh line ∨
       ¬ ContainsLabeledRun "Yaw:".toList isNumDashCh line) →
      parseSerialLine line = none) := by
  constructor
  · intro w0 w1 w2 w3 w4 w5 w6 w7 w8 ipa fpa negr ipr fpr negp ipp fpp negy ipy fpy
      hw0 hw1 hw2 hw3 hw4 hw5 hw6 hw7 hw8 hipa hfpa hnea hipr hfpr hner hipp hfpp hnep
      hipy hfpy hney
    exact parseSerialLine_mkLine w0 w1 w2 w3 w4 w5 w6 w7 w8 ipa fpa negr ipr fpr
      negp ipp fpp negy ipy fpy hw0 hw1 hw2 hw3 hw4 hw5 hw6 hw7 hw8
      hipa hfpa hnea hipr hfpr hner hipp hfpp hnep hipy hfpy hney
  · exact parseSerialLine_none_of_missing

/-- Witness for the amended C3: a concrete well-formed line parses to
its four values, and a label-free line is rejected. -/
theorem C3_witness :
    parseSerialLine (mkLine [] [' '] [' '] [' '] [' '] [' '] [' '] [' '] []
        (renderNum false [4, 5] [3]) (renderNum true [1] [2])
        (renderNum false [0] [8]) (renderNum false [0] [1])) =
      some { angle := some (numValue false [4, 5] [3]),
             roll := some (numValue true [1] [2]),
             pitch := some (numValue false [0] [8]),
             yaw := some (numValue false [0] [1]),
             raw := mkLine [] [' '] [' '] [' '] [' '] [' '] [' '] [' '] []
               (renderNum false [4, 5] [3]) (renderNum true [1] [2])
               (renderNum false [0] [8]) (renderNum false [0] [1]) } ∧
    parseSerialLine "hello".toList = none := by
  constructor
  · exact (C3_parser_amended).1 [] [' '] [' '] [' '] [' '] [' '] [' '] [' '] []
      [4, 5] [3] true [1] [2] false [0] [8] false [0] [1]
      (by decide) (by decide) (by decide) (by decide) (by decide) (by decide)
      (by decide) (by decide) (by decide)
      (by decide) (by decide) (Or.inl (by decide))
      (by decide) (by decide) (Or.inl (by decide))
      (by decide) (by decide) (Or.inl (by decide))
      (by decide) (by decide) (Or.inl (by decide))
  · exact (C3_parser_amended).2 "hello".toList
      (Or.inl (not_contains_of_scan_none "Angle:".toList isNumCh "hello".toList
        (by decide) numCh_not_ws (by decide)))

end KneeBraced
